import Mathlib

/-!
Verification development for the alias-game backend (Rust).

Shallow embedding of the parts of the code that the checked properties
concern: the game engine (`game-engine/src/game.rs`), the team manager
(`game-engine/src/team.rs`), the scoring analyzer
(`game-engine/src/scoring.rs`), the HTTP room handlers
(`api-gateway/src/rooms.rs`) and the WebSocket handlers
(`api-gateway/src/websocket.rs`, `api-gateway/src/websocket/game.rs`).

Conventions of the embedding:
* Rust `u32`/`u8`/`usize` become `Nat` (subtraction is the Rust value on
  the non-underflowing inputs that occur here), `i32` becomes `Int`.
* `DateTime<Utc>` becomes an abstract `Nat` timestamp threaded as a `now`
  parameter.
* `HashMap` becomes an association list whose list order stands for the
  map's iteration order; `insert` overwrites the value at an existing key
  in place and appends a fresh key at the end.
* Functions taking `&mut self` in Rust are state-passing: they return the
  new state, paired with the `Result` payload or error.  Where the Rust
  code can return `Err` after having already mutated state (the team
  manager), the returned state carries that mutation.
* The random inputs (drawn words, generated room codes, fresh object ids)
  are externalized as explicit parameters.
-/

namespace AliasGame

/-- Mirror of `shared::models::WordResult`. -/
inductive WordResult where
  | correct
  | skipped
  | penalty
deriving DecidableEq, Repr

/-- Mirror of `shared::models::UserRole`. -/
inductive UserRole where
  | admin
  | player
deriving DecidableEq, Repr

/-- Mirror of `shared::models::RoomState`. -/
inductive RoomState where
  | waiting
  | ready
  | inProgress
  | paused
  | finished
deriving DecidableEq, Repr

/-- Mirror of `shared::models::GameWord`. -/
structure GameWord where
  word : String
  difficulty : String
  category : Option String
  result : Option WordResult
  time_spent : Option Nat
deriving DecidableEq, Repr

/-- Mirror of `shared::models::Round`. -/
structure Round where
  round_number : Nat
  team_id : String
  explainer_id : String
  words : List GameWord
  timer_seconds : Nat
  time_remaining : Nat
  score_gained : Int
  started_at : Option Nat
  ended_at : Option Nat
deriving DecidableEq, Repr

/-- Mirror of `shared::models::Team`. -/
structure Team where
  id : String
  name : String
  color : String
  players : List String
  score : Int
  is_ready : Bool
deriving DecidableEq, Repr

/-- Mirror of `shared::models::GameSettings`. -/
structure GameSettings where
  round_duration_seconds : Nat
  words_per_round : Nat
  skip_penalty_after : Nat
  win_score : Int
  difficulty : String
deriving DecidableEq, Repr

/-- Mirror of `GameSettings::default()`. -/
def GameSettings.default : GameSettings :=
  { round_duration_seconds := 60
    words_per_round := 20
    skip_penalty_after := 3
    win_score := 50
    difficulty := "mixed" }

/-- Mirror of `shared::models::GameState`. -/
structure GameState where
  teams : List Team
  current_round : Option Round
  round_history : List Round
  current_team_index : Nat
  current_word_index : Nat
  used_words : List String
  settings : GameSettings
  winner_team_id : Option String
  started_at : Option Nat
  ended_at : Option Nat
deriving DecidableEq, Repr

/-- Apply `f` to the element at index `i`, identity when out of range.
Mirrors `if let Some(x) = v.get_mut(i) ... `. -/
def modifyIdx (f : α → α) : Nat → List α → List α
  | _, [] => []
  | 0, x :: xs => f x :: xs
  | n + 1, x :: xs => x :: modifyIdx f n xs

/-- Apply `f` to the first element satisfying `p`, identity when none does.
Mirrors `iter_mut().find(p)` followed by a mutation. -/
def updateFirst (p : α → Bool) (f : α → α) : List α → List α
  | [] => []
  | x :: xs => if p x then f x :: xs else x :: updateFirst p f xs

/-- Number of words of the round already marked skipped.  Mirrors the
`skip_count` computation inside `GameEngine::process_word_result`. -/
def skipCount (ws : List GameWord) : Nat :=
  (ws.filter fun w => w.result = some WordResult.skipped).length

/-- Mirror of `GameEngine::process_word_result` (game.rs).  Returns the
score change on success.  The Rust receiver is `&mut self`; all its
mutations happen after the two error returns, so the error case carries no
state. -/
def process_word_result (s : GameState) (result : WordResult) :
    Except String (Int × GameState) :=
  match s.current_round with
  | none => .error "No active round"
  | some round =>
    if ((round.words.get? s.current_word_index).bind (fun w => w.result)).isSome then
      .error "Word already processed"
    else
      let score_change : Int :=
        match result with
        | .correct => 1
        | .skipped =>
          if skipCount round.words ≥ s.settings.skip_penalty_after then -1 else 0
        | .penalty => -1
      let words' := modifyIdx
        (fun w => { w with
          result := some result
          time_spent := some (s.settings.round_duration_seconds - round.time_remaining) })
        s.current_word_index round.words
      let round' := { round with words := words', score_gained := round.score_gained + score_change }
      let teams' := updateFirst (fun t => t.id == round.team_id)
        (fun t => { t with score := t.score + score_change }) s.teams
      .ok (score_change,
        { s with
          current_round := some round'
          teams := teams'
          current_word_index := s.current_word_index + 1 })

/-- Mirror of `GameEngine::check_for_winner` (game.rs): first team whose
score reaches `win_score` becomes the winner and stamps `ended_at`. -/
def check_for_winner (s : GameState) (now : Nat) : GameState :=
  match s.teams.find? (fun t => s.settings.win_score ≤ t.score) with
  | some t => { s with winner_team_id := some t.id, ended_at := some now }
  | none => s

/-- Mirror of `GameEngine::end_round` (game.rs).  Stamps `ended_at`,
appends the round to the history, advances the team index modulo the team
count and evaluates the win condition.  The Rust modulo panics when
`teams` is empty; a panic is not a successful call, so the embedding
returns an error there, before any mutation. -/
def end_round (s : GameState) (now : Nat) : Except String (Round × GameState) :=
  match s.current_round with
  | none => .error "No active round"
  | some round =>
    if s.teams.length = 0 then .error "panic: remainder by zero"
    else
      let round' := { round with ended_at := some now }
      let s₁ : GameState :=
        { s with
          current_round := none
          round_history := s.round_history ++ [round']
          current_team_index := (s.current_team_index + 1) % s.teams.length }
      .ok (round', check_for_winner s₁ now)

/-- Mirror of `GameEngine::pause_game` (game.rs).  The only effect in the
source beyond the guard is aborting the tokio timer task, which lives
outside the game state. -/
def pause_game (s : GameState) : Except String GameState :=
  match s.current_round with
  | none => .error "No active round to pause"
  | some _ => .ok s

/-- Mirror of `GameEngine::resume_game` (game.rs).  Beyond the guard the
source only logs. -/
def resume_game (s : GameState) : Except String GameState :=
  match s.current_round with
  | none => .error "No active round to resume"
  | some _ => .ok s

/-- Mirror of `TeamManager` (team.rs); the constant capacity fields
`max_teams = 2`, `min_players_per_team = 2`, `max_players_per_team = 5`
are inlined as the literals the source always uses. -/
structure TeamManager where
  teams : List Team
deriving DecidableEq, Repr

/-- Mirror of the loop of `TeamManager::remove_player`: the first team
containing the player loses its first occurrence of the id; `is_ready` is
cleared when the team drops below two players.  Returns the id of the
team the player was removed from. -/
def removePlayerAux : List Team → String → List Team × Option String
  | [], _ => ([], none)
  | t :: ts, uid =>
    if uid ∈ t.players then
      let players' := t.players.erase uid
      (({ t with
          players := players'
          is_ready := if players'.length < 2 then false else t.is_ready }) :: ts,
        some t.id)
    else
      let (ts', r) := removePlayerAux ts uid
      (t :: ts', r)

/-- Mirror of `TeamManager::remove_player` (team.rs). -/
def remove_player (tm : TeamManager) (uid : String) : TeamManager × Option String :=
  let (ts, r) := removePlayerAux tm.teams uid
  (⟨ts⟩, r)

/-- Mirror of the find-and-mutate part of `TeamManager::add_player_to_team`:
locate the team by id, reject when absent or full (the state at that point
already lacks the player), else push and possibly set `is_ready`.  The
second component is the error message, `none` on success. -/
def addToTeamAux : List Team → String → String → List Team × Option String
  | [], _, tid => ([], some ("Team " ++ tid ++ " not found"))
  | t :: ts, uid, tid =>
    if t.id = tid then
      if 5 ≤ t.players.length then
        (t :: ts, some ("Team " ++ t.name ++ " is full"))
      else
        let players' := t.players ++ [uid]
        (({ t with
            players := players'
            is_ready := if 2 ≤ players'.length then true else t.is_ready }) :: ts,
          none)
    else
      let (ts', e) := addToTeamAux ts uid tid
      (t :: ts', e)

/-- Mirror of `TeamManager::add_player_to_team` (team.rs): it first removes
the player from any team, then adds to the target team; an error leaves
the state after the removal. -/
def add_player_to_team (tm : TeamManager) (uid tid : String) :
    TeamManager × Option String :=
  let (ts₁, _) := removePlayerAux tm.teams uid
  let (ts₂, e) := addToTeamAux ts₁ uid tid
  (⟨ts₂⟩, e)

/-- Mirror of `TeamManager::get_team` (team.rs). -/
def get_team (tm : TeamManager) (tid : String) : Option Team :=
  tm.teams.find? (fun t => t.id = tid)

/-- Mirror of `TeamManager::get_next_explainer` (team.rs): round-robin over
the team's ordered player list, starting at the first player. -/
def get_next_explainer (tm : TeamManager) (tid : String)
    (previous : Option String) : Option String :=
  match get_team tm tid with
  | none => none
  | some team =>
    if team.players = [] then none
    else
      match previous with
      | none => team.players.head?
      | some prev =>
        match team.players.indexOf? prev with
        | some i => team.players.get? ((i + 1) % team.players.length)
        | none => team.players.head?

/-- Mirror of the pair `GameEngine { game_state, team_manager, .. }`
(game.rs); the Mongo collection handle and the tokio timer handle carry no
game data. -/
structure Engine where
  game_state : GameState
  team_manager : TeamManager
deriving DecidableEq, Repr

/-- Mirror of `GameEngine::start_round` (game.rs).  The corpus draw of
`fetch_words_for_round` is externalized: `drawnWords` stands for the words
the database query sampled (fresh words, appended to `used_words`), `now`
for `Utc::now()`.  The source imposes no guard against an already-active
round: an active round is silently overwritten. -/
def start_round (e : Engine) (drawnWords : List GameWord) (now : Nat) :
    Except String (Round × Engine) :=
  let s := e.game_state
  if s.winner_team_id.isSome then .error "Game has already ended"
  else
    match s.teams.get? s.current_team_index with
    | none => .error "Invalid team index"
    | some current_team =>
      let previous_explainer :=
        (s.round_history.reverse.find? (fun r => r.team_id = current_team.id)).map
          (fun r => r.explainer_id)
      match get_next_explainer e.team_manager current_team.id previous_explainer with
      | none => .error "No explainer available"
      | some explainer_id =>
        let round : Round :=
          { round_number := s.round_history.length + 1
            team_id := current_team.id
            explainer_id := explainer_id
            words := drawnWords
            timer_seconds := s.settings.round_duration_seconds
            time_remaining := s.settings.round_duration_seconds
            score_gained := 0
            started_at := some now
            ended_at := none }
        .ok (round,
          { e with game_state :=
            { s with
              current_round := some round
              current_word_index := 0
              used_words := s.used_words ++ drawnWords.map (fun w => w.word) } })

/-- Mirror of `ScoringSystem` (scoring.rs). -/
structure ScoringSystem where
  points_per_correct : Int
  points_per_skip : Int
  penalty_per_violation : Int
  skip_penalty_threshold : Nat
  bonus_for_all_correct : Int
  time_bonus_threshold : Nat
  time_bonus_points : Int
deriving DecidableEq, Repr

/-- Mirror of `ScoringSystem::default()` (scoring.rs). -/
def ScoringSystem.default : ScoringSystem :=
  { points_per_correct := 1
    points_per_skip := 0
    penalty_per_violation := -1
    skip_penalty_threshold := 3
    bonus_for_all_correct := 5
    time_bonus_threshold := 30
    time_bonus_points := 3 }

/-- Mirror of `ScoringSystem::calculate_word_score` (scoring.rs): note the
strict `>` against the threshold, where the live engine uses `>=`. -/
def calculate_word_score (sc : ScoringSystem) (result : WordResult)
    (skip_count : Nat) : Int :=
  match result with
  | .correct => sc.points_per_correct
  | .skipped =>
    if skip_count > sc.skip_penalty_threshold then sc.penalty_per_violation
    else sc.points_per_skip
  | .penalty => sc.penalty_per_violation

/-- Accumulator state of the loop in `ScoringSystem::calculate_round_score`:
correct count, skip count, penalty count, base score. -/
structure RoundAcc where
  correct_count : Nat
  skip_count : Nat
  penalty_count : Nat
  base_score : Int
deriving DecidableEq, Repr

/-- Mirror of the word loop of `ScoringSystem::calculate_round_score`:
words with an unset result are ignored; a skip is counted first and the
penalty applies when the running count is strictly above the threshold. -/
def roundScoreLoop (sc : ScoringSystem) : List GameWord → RoundAcc → RoundAcc
  | [], acc => acc
  | w :: ws, acc =>
    match w.result with
    | none => roundScoreLoop sc ws acc
    | some .correct =>
      roundScoreLoop sc ws
        { acc with
          correct_count := acc.correct_count + 1
          base_score := acc.base_score + sc.points_per_correct }
    | some .skipped =>
      let k := acc.skip_count + 1
      roundScoreLoop sc ws
        { acc with
          skip_count := k
          base_score := acc.base_score +
            (if k > sc.skip_penalty_threshold then sc.penalty_per_violation
             else sc.points_per_skip) }
    | some .penalty =>
      roundScoreLoop sc ws
        { acc with
          penalty_count := acc.penalty_count + 1
          base_score := acc.base_score + sc.penalty_per_violation }

/-- Mirror of `RoundScore` (scoring.rs). -/
structure RoundScore where
  base_score : Int
  bonuses : Int
  total_score : Int
  correct_count : Nat
  skip_count : Nat
  penalty_count : Nat
  time_used : Nat
deriving DecidableEq, Repr

/-- Mirror of `ScoringSystem::calculate_round_score` (scoring.rs). -/
def calculate_round_score (sc : ScoringSystem) (round : Round) : RoundScore :=
  let acc := roundScoreLoop sc round.words ⟨0, 0, 0, 0⟩
  let bonuses₁ : Int :=
    if acc.correct_count = round.words.length ∧ acc.penalty_count = 0
    then sc.bonus_for_all_correct else 0
  let time_used := round.timer_seconds - round.time_remaining
  let bonuses₂ : Int :=
    bonuses₁ + (if time_used ≤ sc.time_bonus_threshold ∧ 0 < acc.correct_count
                then sc.time_bonus_points else 0)
  { base_score := acc.base_score
    bonuses := bonuses₂
    total_score := acc.base_score + bonuses₂
    correct_count := acc.correct_count
    skip_count := acc.skip_count
    penalty_count := acc.penalty_count
    time_used := time_used }

/-- Modelled from the spec, section 4.G score table (with the live
engine's `>=` convention against the count of prior skips): the score
delta of one submitted word given the number of already-skipped words. -/
def specDelta (priorSkips spa : Nat) : WordResult → Int
  | .correct => 1
  | .skipped => if priorSkips ≥ spa then -1 else 0
  | .penalty => -1

/-- Modelled from the spec: sum of the per-word deltas of section 4.G over
a sequence of submitted results, threading the running skip count. -/
def sumDeltas (priorSkips spa : Nat) : List WordResult → Int
  | [] => 0
  | r :: rs =>
    specDelta priorSkips spa r +
      sumDeltas (priorSkips + if r = WordResult.skipped then 1 else 0) spa rs

/-- Run `process_word_result` over a list of submitted results, stopping at
the first error. -/
def runWords (s : GameState) : List WordResult → Except String GameState
  | [] => .ok s
  | r :: rs =>
    match process_word_result s r with
    | .error e => .error e
    | .ok (_, s') => runWords s' rs

/-- Mirror of `shared::models::RoomParticipant`. -/
structure RoomParticipant where
  user_id : String
  username : String
  display_name : String
  profile_image_url : Option String
  role : UserRole
  team_id : Option String
  is_connected : Bool
  joined_at : Nat
deriving DecidableEq, Repr

/-- Mirror of `shared::models::GameRoom`; `id` is the hex of the ObjectId
and `participants` is the HashMap as an association list in iteration
order. -/
structure GameRoom where
  id : String
  room_code : String
  name : String
  admin_id : String
  participants : List (String × RoomParticipant)
  state : RoomState
  max_players : Nat
  created_at : Nat
  updated_at : Nat
deriving DecidableEq, Repr

/-- Mirror of `shared::models::RoomInfo`. -/
structure RoomInfo where
  id : String
  room_code : String
  name : String
  current_players : Nat
  max_players : Nat
  state : RoomState
  admin_username : String
deriving DecidableEq, Repr

/-- Mirror of `shared::models::CreateRoomResponse`. -/
structure CreateRoomResponse where
  room_id : String
  room_code : String
  name : String
  admin_id : String
deriving DecidableEq, Repr

/-- Identity fields of an authenticated `User` as the handlers read them
(`user.id.unwrap().to_hex()` and the denormalized profile fields). -/
structure UserP where
  uid : String
  username : String
  display_name : String
  profile_image_url : Option String
deriving DecidableEq, Repr

/-- Error taxonomy of `api-gateway/src/error.rs` as used by the room
handlers. -/
inductive AppError where
  | notFound (msg : String)
  | badRequest (msg : String)
  | forbidden (msg : String)
deriving DecidableEq, Repr

/-- Broadcast envelopes (`shared::models::WebSocketMessage`) the embedded
handlers emit. -/
inductive Envelope where
  | userJoined (participant : RoomParticipant)
  | userLeft (uid : String)
  | userKicked (uid kicked_by : String)
  | roomUpdated (room : GameRoom)
  | roomJoined (room : GameRoom)
  | roomCreated (info : RoomInfo)
  | roomDeleted (code : String)
  | roomInfoUpdated (info : RoomInfo)
  | roleUpdated (uid : String) (role : UserRole)
deriving DecidableEq, Repr

/-- Association-list lookup, mirroring `HashMap::get`. -/
def alookup (k : String) (l : List (String × α)) : Option α :=
  (l.find? (fun p => p.fst = k)).map Prod.snd

/-- Mirror of `HashMap::insert`: overwrite the value at an existing key in
place, append a fresh key. -/
def ainsert (k : String) (v : α) : List (String × α) → List (String × α)
  | [] => [(k, v)]
  | (k', v') :: rest =>
    if k' = k then (k, v) :: rest else (k', v') :: ainsert k v rest

/-- Mirror of `HashMap::remove` (drops the entry with the given key). -/
def aremove (k : String) : List (String × α) → List (String × α)
  | [] => []
  | (k', v') :: rest =>
    if k' = k then rest else (k', v') :: aremove k rest

/-- In-place mutation through `HashMap::get_mut`: apply `f` to the value
at key `k`, identity when absent. -/
def amodify (k : String) (f : α → α) : List (String × α) → List (String × α)
  | [] => []
  | (k', v') :: rest =>
    if k' = k then (k', f v') :: rest else (k', v') :: amodify k f rest

/-- Decidable equality for `Except`, needed to evaluate handler outcomes
on concrete inputs. -/
instance [DecidableEq ε] [DecidableEq α] : DecidableEq (Except ε α) := fun x y => by
  cases x <;> cases y
  case error.error a b => exact decidable_of_iff (a = b) (by simp)
  case error.ok a b => exact isFalse (by simp)
  case ok.error a b => exact isFalse (by simp)
  case ok.ok a b => exact decidable_of_iff (a = b) (by simp)

/-- Outcome of a room handler: final registry, envelopes broadcast to the
room channel, envelopes broadcast to the lobby channel, and the returned
`Result`. -/
structure HOut (ε α : Type) where
  registry : List (String × GameRoom)
  roomEvents : List Envelope
  lobbyEvents : List Envelope
  result : Except ε α
deriving DecidableEq, Repr

/-- Mirror of `generate_room_code` (rooms.rs): each draw `n` is from
`0..36` and maps to a digit when `n < 10`, else to an uppercase letter.
The six random draws are externalized as the input list. -/
def generate_room_code (draws : List Nat) : String :=
  ⟨draws.map (fun n =>
    if n < 10 then Char.ofNat (48 + n) else Char.ofNat (65 + n - 10))⟩

/-- Mirror of the `RoomInfo` construction the handlers repeat: player
count, state, and the admin's username looked up in the participants
map. -/
def mkRoomInfo (code : String) (room : GameRoom) : RoomInfo :=
  { id := room.id
    room_code := code
    name := room.name
    current_players := room.participants.length
    max_players := room.max_players
    state := room.state
    admin_username := ((alookup room.admin_id room.participants).map
      (fun p => p.username)).getD "" }

/-- Mirror of `create_room` (rooms.rs).  The generated code and the fresh
ObjectId are externalized as `code` and `roomId`.  After validating
`max_players` the room is inserted unconditionally: a code collision with
a live room silently replaces that room's registry entry. -/
def create_room (registry : List (String × GameRoom)) (user : UserP)
    (reqName : String) (reqMaxPlayers : Nat) (code roomId : String)
    (now : Nat) : HOut AppError CreateRoomResponse :=
  if reqMaxPlayers < 4 ∨ 10 < reqMaxPlayers then
    ⟨registry, [], [],
      .error (.badRequest "Max players must be between 4 and 10")⟩
  else
    let adminParticipant : RoomParticipant :=
      { user_id := user.uid
        username := user.username
        display_name := user.display_name
        profile_image_url := user.profile_image_url
        role := .admin
        team_id := none
        is_connected := true
        joined_at := now }
    let room : GameRoom :=
      { id := roomId
        room_code := code
        name := reqName
        admin_id := user.uid
        participants := [(user.uid, adminParticipant)]
        state := .waiting
        max_players := reqMaxPlayers
        created_at := now
        updated_at := now }
    let info : RoomInfo :=
      { id := roomId
        room_code := code
        name := reqName
        current_players := 1
        max_players := reqMaxPlayers
        state := .waiting
        admin_username := user.username }
    ⟨ainsert code room registry, [], [.roomCreated info],
      .ok { room_id := roomId, room_code := code, name := reqName,
            admin_id := user.uid }⟩

/-- Mirror of `join_room` (rooms.rs).  The capacity check runs before the
membership check; the already-present branch returns before any
broadcast. -/
def join_room (registry : List (String × GameRoom)) (user : UserP)
    (code : String) (now : Nat) : HOut AppError GameRoom :=
  match alookup code registry with
  | none => ⟨registry, [], [], .error (.notFound "Room not found")⟩
  | some room =>
    if room.max_players ≤ room.participants.length then
      ⟨registry, [], [], .error (.badRequest "Room is full")⟩
    else if (alookup user.uid room.participants).isSome then
      let room' := { room with
        participants := amodify user.uid
          (fun p => { p with is_connected := true }) room.participants
        updated_at := now }
      ⟨ainsert code room' registry, [], [], .ok room'⟩
    else
      let participant : RoomParticipant :=
        { user_id := user.uid
          username := user.username
          display_name := user.display_name
          profile_image_url := user.profile_image_url
          role := .player
          team_id := none
          is_connected := true
          joined_at := now }
      let room' := { room with
        participants := ainsert user.uid participant room.participants
        updated_at := now }
      ⟨ainsert code room' registry,
        [.userJoined participant, .roomUpdated room'],
        [.roomInfoUpdated (mkRoomInfo code room')],
        .ok room'⟩

/-- Mirror of the HTTP `leave_room` (rooms.rs).  The empty-room branch is
reached only when the leaver was the admin, and emits nothing to the
lobby; the surviving-room branches emit no lobby envelope either. -/
def leave_room (registry : List (String × GameRoom)) (uid : String)
    (code : String) (now : Nat) : HOut AppError Unit :=
  match alookup code registry with
  | none => ⟨registry, [], [], .error (.notFound "Room not found")⟩
  | some room =>
    let room₁ := { room with
      participants := aremove uid room.participants
      updated_at := now }
    if room₁.admin_id = uid then
      match room₁.participants.head? with
      | some (newAdminId, _) =>
        let room₂ := { room₁ with
          participants := amodify newAdminId
            (fun p => { p with role := .admin }) room₁.participants
          admin_id := newAdminId }
        ⟨ainsert code room₂ registry,
          [.userLeft uid, .roleUpdated newAdminId .admin, .roomUpdated room₂],
          [], .ok ()⟩
      | none =>
        ⟨aremove code registry, [.userLeft uid], [], .ok ()⟩
    else
      ⟨ainsert code room₁ registry,
        [.userLeft uid, .roomUpdated room₁], [], .ok ()⟩

/-- Mirror of the WebSocket `handle_leave_room` (websocket.rs).  The empty
check runs regardless of who left and broadcasts `room_deleted` to the
lobby; the surviving-room path ends with `room_updated` to the room and
`room_info_updated` to the lobby. -/
def handle_leave_room (registry : List (String × GameRoom)) (uid : String)
    (code : String) (now : Nat) : HOut String Unit :=
  match alookup code registry with
  | none => ⟨registry, [], [], .error "Room not found"⟩
  | some room =>
    let room₁ := { room with
      participants := aremove uid room.participants
      updated_at := now }
    if room₁.participants = [] then
      ⟨aremove code registry, [.userLeft uid], [.roomDeleted code], .ok ()⟩
    else
      let (room₂, evs) :=
        if room₁.admin_id = uid then
          match room₁.participants.head? with
          | some (newAdminId, _) =>
            ({ room₁ with
                participants := amodify newAdminId
                  (fun p => { p with role := .admin }) room₁.participants
                admin_id := newAdminId },
              [Envelope.userLeft uid, Envelope.roleUpdated newAdminId .admin])
          | none => (room₁, [Envelope.userLeft uid])
        else (room₁, [Envelope.userLeft uid])
      ⟨ainsert code room₂ registry,
        evs ++ [.roomUpdated room₂],
        [.roomInfoUpdated (mkRoomInfo code room₂)], .ok ()⟩

/-- Mirror of the WebSocket `handle_join_room` (websocket.rs): it refuses
a user who is not already a participant, and for a participant only sets
`is_connected` and refreshes `updated_at`. -/
def handle_join_room (registry : List (String × GameRoom)) (uid : String)
    (code : String) (now : Nat) : HOut String Envelope :=
  match alookup code registry with
  | none => ⟨registry, [], [], .error "Room not found"⟩
  | some room =>
    if (alookup uid room.participants).isSome = false then
      ⟨registry, [], [], .error "User is not a participant in this room"⟩
    else
      let room' := { room with
        participants := amodify uid
          (fun p => { p with is_connected := true }) room.participants
        updated_at := now }
      ⟨ainsert code room' registry, [.roomUpdated room'], [],
        .ok (.roomJoined room')⟩

/-- Mirror of the precondition chain of `handle_word_action`
(websocket/game.rs): require an active round, require the caller to be its
explainer, then delegate to `process_word_result`.  The round-ending
continuation the handler runs when no word remains is the separately
embedded `end_round`. -/
def handle_word_action (uid : String) (result : WordResult) (e : Engine) :
    Except String (Int × Engine) :=
  match e.game_state.current_round with
  | none => .error "No active round"
  | some round =>
    if round.explainer_id ≠ uid then
      .error "Only explainer can submit word results"
    else
      match process_word_result e.game_state result with
      | .error err => .error err
      | .ok (sc, s') => .ok (sc, { e with game_state := s' })

/-! Helper lemmas about the association-list and list-mutation helpers. -/

theorem alookup_amodify_self (k : String) (f : α → α) (l : List (String × α)) :
    alookup k (amodify k f l) = (alookup k l).map f := by
  induction l with
  | nil => simp [alookup, amodify]
  | cons hd tl ih =>
    obtain ⟨k', v'⟩ := hd
    by_cases h : k' = k
    · subst h
      simp [alookup, amodify, List.find?]
    · simp only [amodify, if_neg h]
      simpa [alookup, List.find?, h] using ih

theorem alookup_amodify_ne (k k' : String) (f : α → α) (l : List (String × α))
    (h : k' ≠ k) : alookup k' (amodify k f l) = alookup k' l := by
  induction l with
  | nil => simp [alookup, amodify]
  | cons hd tl ih =>
    obtain ⟨k₀, v₀⟩ := hd
    by_cases h₀ : k₀ = k
    · subst h₀
      simp [alookup, amodify, List.find?, (by simpa using h.symm : ¬(k₀ = k'))]
    · simp only [amodify, if_neg h₀]
      by_cases h₁ : k₀ = k'
      · subst h₁
        simp [alookup, List.find?]
      · simpa [alookup, List.find?, h₁] using ih

theorem keys_amodify (k : String) (f : α → α) (l : List (String × α)) :
    (amodify k f l).map Prod.fst = l.map Prod.fst := by
  induction l with
  | nil => rfl
  | cons hd tl ih =>
    obtain ⟨k₀, v₀⟩ := hd
    by_cases h : k₀ = k
    · subst h; simp [amodify]
    · simp [amodify, h, ih]

theorem length_amodify (k : String) (f : α → α) (l : List (String × α)) :
    (amodify k f l).length = l.length := by
  have := congrArg List.length (keys_amodify k f l)
  simpa using this

theorem alookup_ainsert_self (k : String) (v : α) (l : List (String × α)) :
    alookup k (ainsert k v l) = some v := by
  induction l with
  | nil => simp [alookup, ainsert, List.find?]
  | cons hd tl ih =>
    obtain ⟨k₀, v₀⟩ := hd
    by_cases h : k₀ = k
    · subst h; simp [alookup, ainsert, List.find?]
    · simpa [alookup, ainsert, List.find?, h] using ih

/-- Number of entries of an association list carrying the given key. -/
def countKey (k : String) (l : List (String × α)) : Nat :=
  (l.filter fun p => p.fst = k).length

theorem countKey_amodify (k k' : String) (f : α → α) (l : List (String × α)) :
    countKey k' (amodify k f l) = countKey k' l := by
  induction l with
  | nil => rfl
  | cons hd tl ih =>
    obtain ⟨k₀, v₀⟩ := hd
    by_cases h : k₀ = k
    · subst h
      by_cases h' : k₀ = k'
      · simp [countKey, amodify, List.filter, h']
      · simp [countKey, amodify, List.filter, h']
    · by_cases h' : k₀ = k'
      · subst h'
        simp only [amodify, if_neg h]
        simpa [countKey, List.filter] using ih
      · simp only [amodify, if_neg h]
        simpa [countKey, List.filter, h'] using ih

theorem countKey_eq_one_of_nodup (k : String) (l : List (String × α))
    (hn : (l.map Prod.fst).Nodup) (hs : (alookup k l).isSome) :
    countKey k l = 1 := by
  induction l with
  | nil => simp [alookup] at hs
  | cons hd tl ih =>
    obtain ⟨k₀, v₀⟩ := hd
    simp only [List.map_cons, List.nodup_cons] at hn
    by_cases h : k₀ = k
    · subst h
      have hfil : List.filter (fun p => decide (p.1 = k₀)) tl = [] := by
        apply List.filter_eq_nil_iff.mpr
        intro p hp
        have : p.1 ≠ k₀ := fun hk => hn.1 (hk ▸ List.mem_map_of_mem Prod.fst hp)
        simpa using this
      simp [countKey, List.filter, hfil]
    · have hs' : (alookup k tl).isSome := by
        simpa [alookup, List.find?, h] using hs
      have := ih hn.2 hs'
      simpa [countKey, List.filter, h] using this

theorem modifyIdx_of_length_le (f : α → α) (n : Nat) (l : List α)
    (h : l.length ≤ n) : modifyIdx f n l = l := by
  induction l generalizing n with
  | nil => cases n <;> rfl
  | cons x xs ih =>
    cases n with
    | zero => simp at h
    | succ m =>
      simp only [List.length_cons, Nat.succ_le_succ_iff] at h
      simp [modifyIdx, ih m h]

theorem modifyIdx_append (f : α → α) (done : List α) (x : α) (rest : List α) :
    modifyIdx f done.length (done ++ x :: rest) = done ++ f x :: rest := by
  induction done with
  | nil => rfl
  | cons d ds ih => simp [modifyIdx, ih]

theorem get?_modifyIdx_self (f : α → α) (n : Nat) (l : List α) :
    (modifyIdx f n l).get? n = (l.get? n).map f := by
  induction l generalizing n with
  | nil => cases n <;> rfl
  | cons x xs ih =>
    cases n with
    | zero => rfl
    | succ m => simpa [modifyIdx] using ih m

theorem get?_modifyIdx_ne (f : α → α) (n m : Nat) (l : List α) (h : m ≠ n) :
    (modifyIdx f n l).get? m = l.get? m := by
  induction l generalizing n m with
  | nil => cases n <;> rfl
  | cons x xs ih =>
    cases n with
    | zero =>
      cases m with
      | zero => exact absurd rfl h
      | succ j => rfl
    | succ k =>
      cases m with
      | zero => rfl
      | succ j =>
        have : j ≠ k := fun hc => h (by rw [hc])
        simpa [modifyIdx] using ih k j this

theorem updateFirst_append (p : α → Bool) (f : α → α) (pre : List α) (x : α)
    (post : List α) (hpre : ∀ y ∈ pre, p y = false) (hx : p x = true) :
    updateFirst p f (pre ++ x :: post) = pre ++ f x :: post := by
  induction pre with
  | nil => simp [updateFirst, hx]
  | cons y ys ih =>
    have hy : p y = false := hpre y (List.mem_cons_self y ys)
    have ih' := ih (fun z hz => hpre z (List.mem_cons_of_mem y hz))
    simp only [List.cons_append, updateFirst, hy, Bool.false_eq_true, if_false]
    simpa using ih'

/-! Claim theorems. -/

/-- Claim C8: `pause_game` and `resume_game` fail exactly when no round is
active, and a successful call returns the game state with every field
unchanged; the only effect in the source is on the tokio timer task, which
lives outside the game state. -/
theorem claim8_pause_resume_frame (s : GameState) :
    ((pause_game s).toOption.isSome ↔ s.current_round.isSome) ∧
    ((resume_game s).toOption.isSome ↔ s.current_round.isSome) ∧
    (∀ s', pause_game s = .ok s' → s' = s) ∧
    (∀ s', resume_game s = .ok s' → s' = s) := by
  refine ⟨?_, ?_, ?_, ?_⟩ <;>
    cases h : s.current_round <;>
      simp [pause_game, resume_game, h, Except.toOption]

/-- Sample game state with an active one-word round, used to instantiate
hypothesis-bearing theorems. -/
def sampleRound : Round :=
  { round_number := 1
    team_id := "team_a"
    explainer_id := "p1"
    words := [⟨"word1", "easy", none, none, none⟩]
    timer_seconds := 60
    time_remaining := 50
    score_gained := 0
    started_at := some 0
    ended_at := none }

/-- Sample team pair mirroring `TeamManager::new` with players assigned. -/
def sampleTeams : List Team :=
  [⟨"team_a", "A", "#FF6B6B", ["p1", "p2"], 0, true⟩,
   ⟨"team_b", "B", "#4ECDC4", ["p3", "p4"], 0, true⟩]

/-- Sample game state carrying `sampleRound` as the active round. -/
def sampleState : GameState :=
  { teams := sampleTeams
    current_round := some sampleRound
    round_history := []
    current_team_index := 0
    current_word_index := 0
    used_words := ["word1"]
    settings := GameSettings.default
    winner_team_id := none
    started_at := some 0
    ended_at := none }

/-- Witness for claim C8 at `sampleState`: both guards hold and both
operations return the state unchanged. -/
theorem claim8_pause_resume_frame_witness :
    (pause_game sampleState).toOption.isSome ∧
    (∀ s', pause_game sampleState = .ok s' → s' = sampleState) := by
  refine ⟨?_, ?_⟩
  · exact (claim8_pause_resume_frame sampleState).1.mpr (by decide)
  · exact (claim8_pause_resume_frame sampleState).2.2.1

/-- Claim C10: the WebSocket `handle_join_room` never creates membership.
A missing room or a non-participant caller yields an error with the
registry untouched; a participant caller succeeds and the room changes
only by that participant's `is_connected := true` and the refreshed
`updated_at`. -/
theorem claim10_ws_join_no_creation (registry : List (String × GameRoom))
    (uid code : String) (now : Nat) :
    (alookup code registry = none →
      handle_join_room registry uid code now =
        ⟨registry, [], [], .error "Room not found"⟩) ∧
    (∀ room, alookup code registry = some room →
      ((alookup uid room.participants = none →
        handle_join_room registry uid code now =
          ⟨registry, [], [], .error "User is not a participant in this room"⟩) ∧
      (∀ p, alookup uid room.participants = some p →
        ∃ room',
          handle_join_room registry uid code now =
            ⟨ainsert code room' registry, [.roomUpdated room'], [],
              .ok (.roomJoined room')⟩ ∧
          alookup uid room'.participants = some { p with is_connected := true } ∧
          (∀ u', u' ≠ uid →
            alookup u' room'.participants = alookup u' room.participants) ∧
          room'.participants.length = room.participants.length ∧
          room'.updated_at = now ∧
          room'.id = room.id ∧ room'.room_code = room.room_code ∧
          room'.name = room.name ∧ room'.admin_id = room.admin_id ∧
          room'.state = room.state ∧ room'.max_players = room.max_players ∧
          room'.created_at = room.created_at))) := by
  constructor
  · intro h
    simp [handle_join_room, h]
  · intro room hroom
    constructor
    · intro habs
      simp [handle_join_room, hroom, habs]
    · intro p hp
      refine ⟨{ room with
        participants := amodify uid
          (fun q => { q with is_connected := true }) room.participants
        updated_at := now }, ?_, ?_, ?_, ?_, rfl, rfl, rfl, rfl, rfl, rfl, rfl, rfl⟩
      · simp [handle_join_room, hroom, hp]
      · simp [alookup_amodify_self, hp]
      · intro u' hu'
        exact alookup_amodify_ne uid u' _ room.participants hu'
      · exact length_amodify uid _ room.participants

/-- Sample room with two participants, the admin `u1` and player `u2`. -/
def sampleParticipant (uid : String) (role : UserRole) : RoomParticipant :=
  { user_id := uid
    username := uid
    display_name := uid
    profile_image_url := none
    role := role
    team_id := none
    is_connected := false
    joined_at := 0 }

/-- Sample room with admin `u1` and player `u2` and room for two more. -/
def sampleRoom : GameRoom :=
  { id := "0a1b"
    room_code := "R0OM01"
    name := "sample"
    admin_id := "u1"
    participants :=
      [("u1", sampleParticipant "u1" .admin), ("u2", sampleParticipant "u2" .player)]
    state := .waiting
    max_players := 4
    created_at := 0
    updated_at := 0 }

/-- Witness for claim C10: in the concrete registry holding `sampleRoom`,
the participant `u2` rejoining over WebSocket only gains
`is_connected := true` while the rest of the room is unchanged. -/
theorem claim10_ws_join_no_creation_witness :
    ∃ room',
      handle_join_room [("R0OM01", sampleRoom)] "u2" "R0OM01" 9 =
        ⟨ainsert "R0OM01" room' [("R0OM01", sampleRoom)],
          [.roomUpdated room'], [], .ok (.roomJoined room')⟩ ∧
      alookup "u2" room'.participants =
        some { sampleParticipant "u2" .player with is_connected := true } ∧
      (∀ u', u' ≠ "u2" →
        alookup u' room'.participants = alookup u' sampleRoom.participants) ∧
      room'.participants.length = sampleRoom.participants.length ∧
      room'.updated_at = 9 ∧
      room'.id = sampleRoom.id ∧ room'.room_code = sampleRoom.room_code ∧
      room'.name = sampleRoom.name ∧ room'.admin_id = sampleRoom.admin_id ∧
      room'.state = sampleRoom.state ∧
      room'.max_players = sampleRoom.max_players ∧
      room'.created_at = sampleRoom.created_at := by
  have h := (claim10_ws_join_no_creation [("R0OM01", sampleRoom)] "u2" "R0OM01" 9).2
    sampleRoom (by decide)
  exact h.2 (sampleParticipant "u2" .player) (by decide)

theorem countKey_eq_zero_of_alookup_none (k : String) (l : List (String × α))
    (h : alookup k l = none) : countKey k l = 0 := by
  induction l with
  | nil => rfl
  | cons hd tl ih =>
    obtain ⟨k₀, v₀⟩ := hd
    by_cases hk : k₀ = k
    · subst hk
      simp [alookup, List.find?] at h
    · have h' : alookup k tl = none := by
        simpa [alookup, List.find?, hk] using h
      simpa [countKey, List.filter, hk] using ih h'

theorem countKey_ainsert_of_none (k : String) (v : α) (l : List (String × α))
    (h : alookup k l = none) : countKey k (ainsert k v l) = 1 := by
  induction l with
  | nil => simp [countKey, ainsert, List.filter]
  | cons hd tl ih =>
    obtain ⟨k₀, v₀⟩ := hd
    by_cases hk : k₀ = k
    · subst hk
      simp [alookup, List.find?] at h
    · have h' : alookup k tl = none := by
        simpa [alookup, List.find?, hk] using h
      simpa [countKey, ainsert, hk, List.filter] using ih h'

theorem length_ainsert_of_none (k : String) (v : α) (l : List (String × α))
    (h : alookup k l = none) : (ainsert k v l).length = l.length + 1 := by
  induction l with
  | nil => rfl
  | cons hd tl ih =>
    obtain ⟨k₀, v₀⟩ := hd
    by_cases hk : k₀ = k
    · subst hk
      simp [alookup, List.find?] at h
    · have h' : alookup k tl = none := by
        simpa [alookup, List.find?, hk] using h
      simp [ainsert, hk, ih h']

/-- Claim C4 (code defect): `create_room` neither retries on a code
collision nor fails the request; `HashMap::insert` silently replaces the
live room already registered under the generated code.  This contradicts
the uniqueness/retry contract (and the source's own doc comment
`Generate a unique room code`).  Evaluated at a concrete failing input:
a registry holding `sampleRoom` under `R0OM01` and a second creation
drawing the same code; the old room's entry is gone.  The six-draw
`[0-9A-Z]` shape of `generate_room_code` itself holds. -/
theorem claim4_create_room_collision_replaces :
    (create_room [("R0OM01", sampleRoom)] ⟨"u9", "ninth", "Ninth", none⟩
        "fresh" 4 "R0OM01" "0c3d" 11).result.toOption.isSome ∧
    (create_room [("R0OM01", sampleRoom)] ⟨"u9", "ninth", "Ninth", none⟩
        "fresh" 4 "R0OM01" "0c3d" 11).registry.length = 1 ∧
    alookup "R0OM01" (create_room [("R0OM01", sampleRoom)]
        ⟨"u9", "ninth", "Ninth", none⟩ "fresh" 4 "R0OM01" "0c3d" 11).registry ≠
      some sampleRoom ∧
    (alookup "R0OM01" (create_room [("R0OM01", sampleRoom)]
        ⟨"u9", "ninth", "Ninth", none⟩ "fresh" 4 "R0OM01" "0c3d" 11).registry).map
      (fun r => r.admin_id) = some "u9" ∧
    (generate_room_code [0, 9, 10, 35, 7, 20]).length = 6 ∧
    (generate_room_code [0, 9, 10, 35, 7, 20]).toList.all
      (fun c => ('0' ≤ c ∧ c ≤ '9') ∨ ('A' ≤ c ∧ c ≤ 'Z')) = true := by
  refine ⟨?_, ?_, ?_, ?_, ?_, ?_⟩ <;> decide

/-- Sample room at capacity (four participants, `max_players = 4`) that
contains participant `u2`. -/
def fullRoom : GameRoom :=
  { sampleRoom with
    participants :=
      [("u1", sampleParticipant "u1" .admin), ("u2", sampleParticipant "u2" .player),
       ("u3", sampleParticipant "u3" .player), ("u4", sampleParticipant "u4" .player)] }

/-- Counterexample to claim C5 as stated: `u2` is already a participant of
the full room, yet the rejoin is rejected with `bad_request` instead of
the claimed idempotent success, because the capacity check precedes the
membership check. -/
theorem claim5_full_rejoin_rejected :
    (alookup "u2" fullRoom.participants).isSome ∧
    fullRoom.max_players ≤ fullRoom.participants.length ∧
    join_room [("R0OM01", fullRoom)] ⟨"u2", "u2", "u2", none⟩ "R0OM01" 9 =
      ⟨[("R0OM01", fullRoom)], [], [], .error (.badRequest "Room is full")⟩ := by
  refine ⟨?_, ?_, ?_⟩ <;> decide

/-- Claim C5 as amended: `join_room` fails `not_found` when the code is
unknown and `bad_request` whenever the room is at capacity — even for an
already-present participant, since the capacity check runs first.  Below
capacity it is idempotent for a present participant (one entry, connected,
`updated_at` refreshed), and two successive joins by a fresh user both
succeed and leave exactly one entry provided the room stays below
capacity after the first join. -/
theorem claim5_join_room (registry : List (String × GameRoom)) (user : UserP)
    (code : String) (now : Nat) :
    (alookup code registry = none →
      join_room registry user code now =
        ⟨registry, [], [], .error (.notFound "Room not found")⟩) ∧
    (∀ room, alookup code registry = some room →
      room.max_players ≤ room.participants.length →
      join_room registry user code now =
        ⟨registry, [], [], .error (.badRequest "Room is full")⟩) ∧
    (∀ room, alookup code registry = some room →
      room.participants.length < room.max_players →
      (alookup user.uid room.participants).isSome →
      (room.participants.map Prod.fst).Nodup →
      ∃ room',
        join_room registry user code now =
          ⟨ainsert code room' registry, [], [], .ok room'⟩ ∧
        countKey user.uid room'.participants = 1 ∧
        (alookup user.uid room'.participants).map (fun p => p.is_connected) =
          some true ∧
        room'.updated_at = now ∧
        room'.participants.length = room.participants.length) ∧
    (∀ room, alookup code registry = some room →
      alookup user.uid room.participants = none →
      room.participants.length + 1 < room.max_players →
      ∃ r₁ r₂,
        (join_room registry user code now).result = .ok r₁ ∧
        (join_room (join_room registry user code now).registry user code
          now).result = .ok r₂ ∧
        countKey user.uid r₂.participants = 1) := by
  refine ⟨?_, ?_, ?_, ?_⟩
  · intro h
    simp [join_room, h]
  · intro room hroom hfull
    simp [join_room, hroom, if_pos hfull]
  · intro room hroom hcap hmem hnodup
    obtain ⟨p, hp⟩ := Option.isSome_iff_exists.mp hmem
    refine ⟨{ room with
      participants := amodify user.uid
        (fun q => { q with is_connected := true }) room.participants
      updated_at := now }, ?_, ?_, ?_, rfl, ?_⟩
    · simp [join_room, hroom, Nat.not_le.mpr hcap, hp]
    · rw [show countKey user.uid (amodify user.uid
        (fun q => { q with is_connected := true }) room.participants) =
        countKey user.uid room.participants from
        countKey_amodify user.uid user.uid _ room.participants]
      exact countKey_eq_one_of_nodup user.uid room.participants hnodup hmem
    · simp [alookup_amodify_self, hp]
    · exact length_amodify user.uid _ room.participants
  · intro room hroom habs hcap
    have hcap₁ : room.participants.length < room.max_players :=
      Nat.lt_of_succ_lt hcap
    set p₁ : RoomParticipant :=
      { user_id := user.uid
        username := user.username
        display_name := user.display_name
        profile_image_url := user.profile_image_url
        role := .player
        team_id := none
        is_connected := true
        joined_at := now } with hp₁
    set room₁ : GameRoom := { room with
      participants := ainsert user.uid p₁ room.participants
      updated_at := now } with hroom₁
    have hjoin₁ : join_room registry user code now =
        ⟨ainsert code room₁ registry,
          [.userJoined p₁, .roomUpdated room₁],
          [.roomInfoUpdated (mkRoomInfo code room₁)], .ok room₁⟩ := by
      simp [join_room, hroom, Nat.not_le.mpr hcap₁, habs, hroom₁, hp₁]
    have hlen₁ : room₁.participants.length = room.participants.length + 1 :=
      length_ainsert_of_none user.uid p₁ room.participants habs
    have hlook₁ : alookup code (ainsert code room₁ registry) = some room₁ :=
      alookup_ainsert_self code room₁ registry
    have hmem₁ : alookup user.uid room₁.participants = some p₁ :=
      alookup_ainsert_self user.uid p₁ room.participants
    have hcap₂ : ¬(room₁.max_players ≤ room₁.participants.length) := by
      have : room₁.max_players = room.max_players := rfl
      omega
    set room₂ : GameRoom := { room₁ with
      participants := amodify user.uid
        (fun q => { q with is_connected := true }) room₁.participants
      updated_at := now } with hroom₂
    refine ⟨room₁, room₂, by rw [hjoin₁], ?_, ?_⟩
    · rw [hjoin₁]
      simp [join_room, hlook₁, hcap₂, hmem₁, hroom₂]
    · rw [show countKey user.uid room₂.participants =
        countKey user.uid room₁.participants from
        countKey_amodify user.uid user.uid _ room₁.participants]
      exact countKey_ainsert_of_none user.uid p₁ room.participants habs

/-- Witness for claim C5 applied at the `sampleRoom` registry: the
present (but below-capacity) participant `u2` rejoins idempotently, and a
fresh user `u9` joining twice ends with one entry. -/
theorem claim5_join_room_witness :
    (∃ room',
      join_room [("R0OM01", sampleRoom)] ⟨"u2", "u2", "u2", none⟩ "R0OM01" 9 =
        ⟨ainsert "R0OM01" room' [("R0OM01", sampleRoom)], [], [], .ok room'⟩ ∧
      countKey "u2" room'.participants = 1 ∧
      (alookup "u2" room'.participants).map (fun p => p.is_connected) =
        some true ∧
      room'.updated_at = 9 ∧
      room'.participants.length = sampleRoom.participants.length) ∧
    (∃ r₁ r₂,
      (join_room [("R0OM01", sampleRoom)] ⟨"u9", "u9", "u9", none⟩ "R0OM01"
        9).result = .ok r₁ ∧
      (join_room (join_room [("R0OM01", sampleRoom)] ⟨"u9", "u9", "u9", none⟩
        "R0OM01" 9).registry ⟨"u9", "u9", "u9", none⟩ "R0OM01" 9).result =
        .ok r₂ ∧
      countKey "u9" r₂.participants = 1) := by
  constructor
  · exact (claim5_join_room [("R0OM01", sampleRoom)] ⟨"u2", "u2", "u2", none⟩
      "R0OM01" 9).2.2.1 sampleRoom (by decide) (by decide) (by decide) (by decide)
  · exact (claim5_join_room [("R0OM01", sampleRoom)] ⟨"u9", "u9", "u9", none⟩
      "R0OM01" 9).2.2.2 sampleRoom (by decide) (by decide) (by decide)

/-- Sample room whose only participant is its admin `u1`. -/
def soloRoom : GameRoom :=
  { sampleRoom with participants := [("u1", sampleParticipant "u1" .admin)] }

/-- Counterexample to claim C6 as stated: on the HTTP leave path, the sole
participant leaving deletes the room but emits no `room_deleted` lobby
envelope, and a non-admin leaving a surviving room emits no
`room_info_updated` lobby envelope — both envelopes the claim requires on
both paths. -/
theorem claim6_http_leave_missing_lobby_envelopes :
    (leave_room [("R0OM01", soloRoom)] "u1" "R0OM01" 7).result = .ok () ∧
    (leave_room [("R0OM01", soloRoom)] "u1" "R0OM01" 7).registry = [] ∧
    (leave_room [("R0OM01", soloRoom)] "u1" "R0OM01" 7).lobbyEvents = [] ∧
    (leave_room [("R0OM01", sampleRoom)] "u2" "R0OM01" 7).result = .ok () ∧
    (leave_room [("R0OM01", sampleRoom)] "u2" "R0OM01" 7).lobbyEvents = [] := by
  refine ⟨?_, ?_, ?_, ?_, ?_⟩ <;> decide

/-- Claim C6 as amended: the claimed behaviour (removal; deletion plus
`room_deleted` to the lobby when the room empties; first-participant admin
succession with `role_updated`; `room_updated` to the room and
`room_info_updated` to the lobby otherwise) holds on the WebSocket path,
but the HTTP path emits no lobby envelope at all — neither `room_deleted`
on deletion nor `room_info_updated` on survival — and deletes an emptied
room only when the leaver was the admin. -/
theorem claim6_leave_room (registry : List (String × GameRoom))
    (uid code : String) (now : Nat) :
    ∀ room, alookup code registry = some room →
      ((aremove uid room.participants = [] →
        handle_leave_room registry uid code now =
          ⟨aremove code registry, [.userLeft uid], [.roomDeleted code],
            .ok ()⟩) ∧
      (∀ na p rest, aremove uid room.participants = (na, p) :: rest →
        room.admin_id = uid →
        ∃ room₂,
          handle_leave_room registry uid code now =
            ⟨ainsert code room₂ registry,
              [.userLeft uid, .roleUpdated na .admin, .roomUpdated room₂],
              [.roomInfoUpdated (mkRoomInfo code room₂)], .ok ()⟩ ∧
          room₂.admin_id = na ∧
          (alookup na room₂.participants).map (fun q => q.role) =
            some .admin) ∧
      (aremove uid room.participants ≠ [] → room.admin_id ≠ uid →
        ∃ room₂,
          handle_leave_room registry uid code now =
            ⟨ainsert code room₂ registry,
              [.userLeft uid, .roomUpdated room₂],
              [.roomInfoUpdated (mkRoomInfo code room₂)], .ok ()⟩ ∧
          room₂.participants = aremove uid room.participants ∧
          room₂.admin_id = room.admin_id) ∧
      (leave_room registry uid code now).lobbyEvents = [] ∧
      (aremove uid room.participants = [] → room.admin_id = uid →
        leave_room registry uid code now =
          ⟨aremove code registry, [.userLeft uid], [], .ok ()⟩)) := by
  intro room hroom
  refine ⟨?_, ?_, ?_, ?_, ?_⟩
  · intro hempty
    simp [handle_leave_room, hroom, hempty]
  · intro na p rest hparts hadmin
    refine ⟨{ room with
      participants := amodify na (fun q => { q with role := .admin })
        (aremove uid room.participants)
      admin_id := na
      updated_at := now }, ?_, rfl, ?_⟩
    · simp [handle_leave_room, hroom, hparts, hadmin]
    · show (alookup na (amodify na (fun q => { q with role := .admin })
        (aremove uid room.participants))).map (fun q => q.role) = some .admin
      rw [alookup_amodify_self, hparts]
      simp [alookup, List.find?]
  · intro hne hadmin
    refine ⟨{ room with
      participants := aremove uid room.participants
      updated_at := now }, ?_, rfl, rfl⟩
    cases hparts : aremove uid room.participants with
    | nil => exact absurd hparts hne
    | cons hd tl =>
      simp [handle_leave_room, hroom, hparts, hadmin]
  · by_cases hadmin : room.admin_id = uid
    · cases hparts : aremove uid room.participants with
      | nil => simp [leave_room, hroom, hparts, hadmin]
      | cons hd tl =>
        obtain ⟨na, p⟩ := hd
        simp [leave_room, hroom, hparts, hadmin]
    · simp [leave_room, hroom, hadmin]
  · intro hempty hadmin
    simp [leave_room, hroom, hempty, hadmin]

/-- Witness for claim C6: the sole admin leaving over WebSocket deletes
the room and notifies the lobby, and a non-admin leaving `sampleRoom`
over WebSocket triggers room and lobby updates; the HTTP path emits no
lobby envelope in either registry. -/
theorem claim6_leave_room_witness :
    (handle_leave_room [("R0OM01", soloRoom)] "u1" "R0OM01" 7 =
      ⟨[], [.userLeft "u1"], [.roomDeleted "R0OM01"], .ok ()⟩) ∧
    (∃ room₂,
      handle_leave_room [("R0OM01", sampleRoom)] "u2" "R0OM01" 7 =
        ⟨ainsert "R0OM01" room₂ [("R0OM01", sampleRoom)],
          [.userLeft "u2", .roomUpdated room₂],
          [.roomInfoUpdated (mkRoomInfo "R0OM01" room₂)], .ok ()⟩ ∧
      room₂.participants = aremove "u2" sampleRoom.participants ∧
      room₂.admin_id = sampleRoom.admin_id) ∧
    (leave_room [("R0OM01", soloRoom)] "u1" "R0OM01" 7).lobbyEvents = [] := by
  refine ⟨?_, ?_, ?_⟩
  · have h := (claim6_leave_room [("R0OM01", soloRoom)] "u1" "R0OM01" 7
      soloRoom (by decide)).1 (by decide)
    simpa using h
  · exact (claim6_leave_room [("R0OM01", sampleRoom)] "u2" "R0OM01" 7
      sampleRoom (by decide)).2.2.1 (by decide) (by decide)
  · exact (claim6_leave_room [("R0OM01", soloRoom)] "u1" "R0OM01" 7
      soloRoom (by decide)).2.2.2.1

/-- Team-management operations for sequences of calls on the manager. -/
inductive TOp where
  | add (uid tid : String)
  | remove (uid : String)
deriving DecidableEq, Repr

/-- Run a sequence of `add_player_to_team` / `remove_player` calls,
keeping the state each call leaves behind (also on error). -/
def runTOps (tm : TeamManager) : List TOp → TeamManager
  | [] => tm
  | .add uid tid :: ops => runTOps (add_player_to_team tm uid tid).1 ops
  | .remove uid :: ops => runTOps (remove_player tm uid).1 ops

/-- Total number of occurrences of a user id across all teams' player
lists. -/
def countUsers (ts : List Team) (v : String) : Nat :=
  (ts.map (fun t => t.players.count v)).sum

theorem countUsers_removePlayerAux_self (ts : List Team) (uid : String) :
    countUsers (removePlayerAux ts uid).1 uid = countUsers ts uid - 1 := by
  induction ts with
  | nil => rfl
  | cons t ts ih =>
    by_cases hmem : uid ∈ t.players
    · have h1 : 0 < t.players.count uid := List.count_pos_iff.mpr hmem
      simp only [removePlayerAux, if_pos hmem, countUsers, List.map_cons,
        List.sum_cons, List.count_erase_self]
      omega
    · have h0 : t.players.count uid = 0 := List.count_eq_zero.mpr hmem
      simp only [removePlayerAux, if_neg hmem]
      simp only [countUsers, List.map_cons, List.sum_cons, h0] at *
      have : (removePlayerAux ts uid).1 = (removePlayerAux ts uid).fst := rfl
      cases hrec : removePlayerAux ts uid with
      | mk ts' r =>
        simp only [hrec] at ih
        simpa using ih

theorem countUsers_removePlayerAux_ne (ts : List Team) (uid v : String)
    (h : v ≠ uid) :
    countUsers (removePlayerAux ts uid).1 v = countUsers ts v := by
  induction ts with
  | nil => rfl
  | cons t ts ih =>
    by_cases hmem : uid ∈ t.players
    · simp only [removePlayerAux, if_pos hmem, countUsers, List.map_cons,
        List.sum_cons]
      rw [List.count_erase_of_ne h]
    · simp only [removePlayerAux, if_neg hmem]
      cases hrec : removePlayerAux ts uid with
      | mk ts' r =>
        simp only [hrec] at ih
        simp only [countUsers, List.map_cons, List.sum_cons] at *
        simpa using ih

theorem addToTeamAux_error_frame (ts : List Team) (uid tid : String)
    (h : (addToTeamAux ts uid tid).2.isSome) :
    (addToTeamAux ts uid tid).1 = ts := by
  induction ts with
  | nil => rfl
  | cons t ts ih =>
    by_cases hid : t.id = tid
    · by_cases hfull : 5 ≤ t.players.length
      · simp [addToTeamAux, hid, hfull]
      · simp [addToTeamAux, hid, hfull] at h
    · simp only [addToTeamAux, if_neg hid] at h ⊢
      cases hrec : addToTeamAux ts uid tid with
      | mk ts' e =>
        simp only [hrec] at ih h
        simp only [List.cons.injEq, true_and]
        exact ih (by simpa using h)

theorem countUsers_addToTeamAux_self (ts : List Team) (uid tid : String) :
    countUsers (addToTeamAux ts uid tid).1 uid ≤ countUsers ts uid + 1 := by
  induction ts with
  | nil => simp [addToTeamAux, countUsers]
  | cons t ts ih =>
    by_cases hid : t.id = tid
    · by_cases hfull : 5 ≤ t.players.length
      · simp [addToTeamAux, hid, hfull]
      · simp only [addToTeamAux, if_pos hid, if_neg hfull, countUsers,
          List.map_cons, List.sum_cons, List.count_append]
        simp [List.count_singleton]
        omega
    · simp only [addToTeamAux, if_neg hid]
      cases hrec : addToTeamAux ts uid tid with
      | mk ts' e =>
        simp only [hrec] at ih
        simp only [countUsers, List.map_cons, List.sum_cons] at *
        omega

theorem countUsers_addToTeamAux_ne (ts : List Team) (uid tid v : String)
    (h : v ≠ uid) :
    countUsers (addToTeamAux ts uid tid).1 v = countUsers ts v := by
  induction ts with
  | nil => rfl
  | cons t ts ih =>
    by_cases hid : t.id = tid
    · by_cases hfull : 5 ≤ t.players.length
      · simp [addToTeamAux, hid, hfull]
      · simp only [addToTeamAux, if_pos hid, if_neg hfull, countUsers,
          List.map_cons, List.sum_cons, List.count_append]
        simp [List.count_singleton, h]
    · simp only [addToTeamAux, if_neg hid]
      cases hrec : addToTeamAux ts uid tid with
      | mk ts' e =>
        simp only [hrec] at ih
        simp only [countUsers, List.map_cons, List.sum_cons] at *
        omega

theorem countUsers_add_le (tm : TeamManager) (uid tid v : String)
    (h : countUsers tm.teams v ≤ 1) :
    countUsers (add_player_to_team tm uid tid).1.teams v ≤ 1 := by
  by_cases hv : v = uid
  · subst hv
    have h₁ := countUsers_removePlayerAux_self tm.teams v
    have h₂ := countUsers_addToTeamAux_self (removePlayerAux tm.teams v).1 v tid
    simp only [add_player_to_team]
    cases hrem : removePlayerAux tm.teams v with
    | mk ts₁ r =>
      simp only [hrem] at h₁ h₂
      cases hadd : addToTeamAux ts₁ v tid with
      | mk ts₂ e =>
        simp only [hadd] at h₂
        simpa using by omega
  · have h₁ := countUsers_removePlayerAux_ne tm.teams uid v hv
    have h₂ := countUsers_addToTeamAux_ne (removePlayerAux tm.teams uid).1 uid
      tid v hv
    simp only [add_player_to_team]
    cases hrem : removePlayerAux tm.teams uid with
    | mk ts₁ r =>
      simp only [hrem] at h₁ h₂
      cases hadd : addToTeamAux ts₁ uid tid with
      | mk ts₂ e =>
        simp only [hadd] at h₂
        simpa using by omega

theorem countUsers_remove_le (tm : TeamManager) (uid v : String)
    (h : countUsers tm.teams v ≤ 1) :
    countUsers (remove_player tm uid).1.teams v ≤ 1 := by
  by_cases hv : v = uid
  · subst hv
    have h₁ := countUsers_removePlayerAux_self tm.teams v
    simp only [remove_player]
    cases hrem : removePlayerAux tm.teams v with
    | mk ts₁ r =>
      simp only [hrem] at h₁
      simpa using by omega
  · have h₁ := countUsers_removePlayerAux_ne tm.teams uid v hv
    simp only [remove_player]
    cases hrem : removePlayerAux tm.teams uid with
    | mk ts₁ r =>
      simp only [hrem] at h₁
      simpa using by omega

/-- Bridge from a duplicate-free flattened roster to the counting
invariant, used to instantiate witnesses. -/
theorem uniqueMembership_of_nodup (ts : List Team)
    (h : ((ts.map (fun t => t.players)).flatten).Nodup) :
    ∀ v, countUsers ts v ≤ 1 := by
  intro v
  have hc := List.nodup_iff_count_le_one.mp h v
  rw [List.count_flatten] at hc
  simpa [countUsers, Function.comp] using hc

/-- Team manager with `team_a` at capacity and `u7` on `team_b`. -/
def c7TM : TeamManager :=
  ⟨[⟨"team_a", "A", "#FF6B6B", ["a1", "a2", "a3", "a4", "a5"], 0, true⟩,
    ⟨"team_b", "B", "#4ECDC4", ["b1", "u7"], 0, true⟩]⟩

/-- Counterexample to claim C7 as stated: moving `u7` into the full
`team_a` errors, yet `u7` has already been removed from `team_b` — the
failed move is not atomic. -/
theorem claim7_failed_move_drops_player :
    ((add_player_to_team c7TM "u7" "team_a").2).isSome ∧
    (add_player_to_team c7TM "u7" "team_a").1 ≠ c7TM ∧
    ((add_player_to_team c7TM "u7" "team_a").1.teams.map
      (fun t => t.players)) = [["a1", "a2", "a3", "a4", "a5"], ["b1"]] := by
  refine ⟨?_, ?_, ?_⟩ <;> decide

/-- Claim C7 as amended: across any sequence of `add_player_to_team` and
`remove_player` calls each user id keeps at most one membership, but a
call to `add_player_to_team` that errors does not restore the original
memberships — it leaves exactly the state produced by first removing the
player from their current team (the source removes before it checks the
target's capacity). -/
theorem claim7_team_moves (tm : TeamManager) (ops : List TOp) :
    ((∀ v, countUsers tm.teams v ≤ 1) →
      ∀ v, countUsers (runTOps tm ops).teams v ≤ 1) ∧
    (∀ uid tid, (add_player_to_team tm uid tid).2.isSome →
      (add_player_to_team tm uid tid).1 = (remove_player tm uid).1) := by
  constructor
  · intro hinv
    induction ops generalizing tm with
    | nil => exact hinv
    | cons op ops ih =>
      cases op with
      | add uid tid =>
        exact ih (add_player_to_team tm uid tid).1
          (fun v => countUsers_add_le tm uid tid v (hinv v))
      | remove uid =>
        exact ih (remove_player tm uid).1
          (fun v => countUsers_remove_le tm uid v (hinv v))
  · intro uid tid herr
    simp only [add_player_to_team, remove_player]
    cases hrem : removePlayerAux tm.teams uid with
    | mk ts₁ r =>
      simp only [add_player_to_team, hrem] at herr
      have := addToTeamAux_error_frame ts₁ uid tid (by
        cases hadd : addToTeamAux ts₁ uid tid with
        | mk ts₂ e =>
          simp only [hadd] at herr ⊢
          simpa using herr)
      cases hadd : addToTeamAux ts₁ uid tid with
      | mk ts₂ e =>
        simp only [hadd] at this
        simp [this]

/-- Witness for claim C7 at `c7TM`: the roster is duplicate-free, a full
add/remove sequence keeps every membership count at one, and the failed
move into the full team equals a bare removal. -/
theorem claim7_team_moves_witness :
    (∀ v, countUsers (runTOps c7TM
      [TOp.add "u7" "team_a", TOp.remove "b1"]).teams v ≤ 1) ∧
    (add_player_to_team c7TM "u7" "team_a").1 = (remove_player c7TM "u7").1 := by
  constructor
  · exact (claim7_team_moves c7TM [TOp.add "u7" "team_a", TOp.remove "b1"]).1
      (uniqueMembership_of_nodup c7TM.teams (by decide))
  · exact (claim7_team_moves c7TM []).2 "u7" "team_a" (by decide)

theorem skipCount_append (a b : List GameWord) :
    skipCount (a ++ b) = skipCount a + skipCount b := by
  simp [skipCount, List.filter_append]

theorem skipCount_of_fresh (l : List GameWord)
    (h : ∀ w ∈ l, w.result = none) : skipCount l = 0 := by
  simp only [skipCount, List.length_eq_zero]
  rw [List.filter_eq_nil_iff]
  intro w hw
  simp [h w hw]

/-- One successful engine step, fully characterized: with an active round
and an unprocessed word under the cursor, `process_word_result` returns
the section 4.G delta (engine `>=` convention) and performs exactly the
documented mutations. -/
theorem process_word_result_step (s : GameState) (r : Round) (w : GameWord)
    (res : WordResult)
    (hcur : s.current_round = some r)
    (hget : r.words.get? s.current_word_index = some w)
    (hfresh : w.result = none) :
    process_word_result s res = .ok
      (specDelta (skipCount r.words) s.settings.skip_penalty_after res,
       { s with
         current_round := some { r with
           words := modifyIdx (fun w0 => { w0 with
               result := some res
               time_spent := some (s.settings.round_duration_seconds -
                 r.time_remaining) })
             s.current_word_index r.words
           score_gained := r.score_gained +
             specDelta (skipCount r.words) s.settings.skip_penalty_after res }
         teams := updateFirst (fun t => t.id == r.team_id)
           (fun t => { t with
               score := t.score +
                 specDelta (skipCount r.words) s.settings.skip_penalty_after res })
           s.teams
         current_word_index := s.current_word_index + 1 }) := by
  have hget' : r.words[s.current_word_index]? = some w := by
    rw [← List.get?_eq_getElem?]; exact hget
  cases res <;>
    simp [process_word_result, hcur, hget, hfresh, specDelta] <;>
      (intro a ha; rw [hget'] at ha; cases ha; exact hfresh)

/-- Shape of a successful `process_word_result`: whenever the cursor's
word is absent or unprocessed, the call returns some delta and applies the
standard mutations. -/
theorem process_word_result_ok_of_open (s : GameState) (r : Round)
    (res : WordResult)
    (hcur : s.current_round = some r)
    (hopen : ((r.words.get? s.current_word_index).bind
      (fun w => w.result)).isSome = false) :
    ∃ sc, process_word_result s res = .ok (sc,
      { s with
        current_round := some { r with
          words := modifyIdx (fun w0 => { w0 with
              result := some res
              time_spent := some (s.settings.round_duration_seconds -
                r.time_remaining) })
            s.current_word_index r.words
          score_gained := r.score_gained + sc }
        teams := updateFirst (fun t => t.id == r.team_id)
          (fun t => { t with score := t.score + sc }) s.teams
        current_word_index := s.current_word_index + 1 }) := by
  have hres : ∀ a : GameWord,
      r.words[s.current_word_index]? = some a → a.result = none := by
    intro a ha
    rw [List.get?_eq_getElem?, ha] at hopen
    cases har : a.result with
    | none => rfl
    | some v => simp [har] at hopen
  refine ⟨match res with
    | .correct => 1
    | .skipped =>
      if skipCount r.words ≥ s.settings.skip_penalty_after then -1 else 0
    | .penalty => -1, ?_⟩
  cases res <;> simp [process_word_result, hcur, hopen] <;> exact hres

/-- The WebSocket word handler forwards a successful engine call
unchanged once its own guards pass. -/
theorem handle_word_action_ok (uid : String) (res : WordResult) (e : Engine)
    (round : Round) (sc : Int) (s' : GameState)
    (hcur : e.game_state.current_round = some round)
    (hexp : round.explainer_id = uid)
    (hpe : process_word_result e.game_state res = .ok (sc, s')) :
    handle_word_action uid res e = .ok (sc, ⟨s', e.team_manager⟩) := by
  simp [handle_word_action, hcur, hexp, hpe]

/-- Engine state with the lone word of `sampleRound` already processed and
the cursor past the end of the word list. -/
def c2Engine : Engine :=
  ⟨{ sampleState with
      current_round := some { sampleRound with
        words := [⟨"word1", "easy", none, some .correct, some 10⟩]
        score_gained := 1 }
      current_word_index := 1 },
    ⟨sampleTeams⟩⟩

/-- Counterexample to claim C2 as stated: `current_word_index` is out of
range (1, with one word), yet the submission by the explainer succeeds —
it returns delta `+1`, bumps the round score to 2 and the cursor to 2 —
instead of failing with the game state unchanged. -/
theorem claim2_out_of_range_submission_succeeds :
    ((c2Engine.game_state.current_round.map
      (fun r => r.words.length)).getD 0 ≤
        c2Engine.game_state.current_word_index) ∧
    (handle_word_action "p1" WordResult.correct c2Engine).toOption.map
      (fun x => x.1) = some 1 ∧
    (handle_word_action "p1" WordResult.correct c2Engine).toOption.map
      (fun x => x.2.game_state.current_round.map (fun r => r.score_gained)) =
      some (some 2) ∧
    (handle_word_action "p1" WordResult.correct c2Engine).toOption.map
      (fun x => x.2.game_state.current_word_index) = some 2 ∧
    (handle_word_action "p1" WordResult.correct c2Engine).toOption.map
      (fun x => x.2.game_state.teams.map (fun t => t.score)) =
      some [1, 0] := by
  refine ⟨?_, ?_, ?_, ?_, ?_⟩ <;> decide

/-- Claim C2 as amended: the submission fails — with no mutation, as every
error return precedes the first mutation in the source — exactly when no
round is active, the caller is not the round's explainer, or the word
under the cursor exists and was already processed.  An out-of-range
`current_word_index` is not rejected: the call succeeds, adds the delta to
the round score and advances the cursor while mutating no word. -/
theorem claim2_word_submission (uid : String) (result : WordResult)
    (e : Engine) :
    (e.game_state.current_round = none →
      handle_word_action uid result e = .error "No active round") ∧
    (∀ round, e.game_state.current_round = some round →
      (round.explainer_id ≠ uid →
        handle_word_action uid result e =
          .error "Only explainer can submit word results") ∧
      (round.explainer_id = uid →
        (((round.words.get? e.game_state.current_word_index).bind
            (fun w => w.result)).isSome →
          handle_word_action uid result e = .error "Word already processed") ∧
        (((round.words.get? e.game_state.current_word_index).bind
            (fun w => w.result)).isSome = false →
          ∃ sc e', handle_word_action uid result e = .ok (sc, e')) ∧
        (round.words.length ≤ e.game_state.current_word_index →
          ∃ sc e',
            handle_word_action uid result e = .ok (sc, e') ∧
            e'.game_state.current_round = some
              { round with score_gained := round.score_gained + sc } ∧
            e'.game_state.current_word_index =
              e.game_state.current_word_index + 1))) := by
  constructor
  · intro h
    simp [handle_word_action, h]
  · intro round hcur
    constructor
    · intro hexp
      simp [handle_word_action, hcur, hexp]
    · intro hexp
      refine ⟨?_, ?_, ?_⟩
      · intro hdone
        have hpe : process_word_result e.game_state result =
            .error "Word already processed" := by
          unfold process_word_result
          rw [hcur]
          simp only [hdone, if_true]
        simp [handle_word_action, hcur, hexp, hpe]
      · intro hopen
        obtain ⟨sc, hpe⟩ :=
          process_word_result_ok_of_open e.game_state round result hcur hopen
        exact ⟨sc, _,
          handle_word_action_ok uid result e round sc _ hcur hexp hpe⟩
      · intro hrange
        have hget : round.words.get? e.game_state.current_word_index = none :=
          List.get?_eq_none.mpr hrange
        have hopen : ((round.words.get? e.game_state.current_word_index).bind
            (fun w => w.result)).isSome = false := by
          rw [hget]; rfl
        obtain ⟨sc, hpe⟩ :=
          process_word_result_ok_of_open e.game_state round result hcur hopen
        rw [modifyIdx_of_length_le _ _ round.words hrange] at hpe
        exact ⟨sc, _,
          handle_word_action_ok uid result e round sc _ hcur hexp hpe, rfl, rfl⟩

/-- Witness for claim C2 at `c2Engine` and `sampleState`: every branch of
the characterization applies at a concrete input. -/
theorem claim2_word_submission_witness :
    (handle_word_action "p9" WordResult.correct c2Engine =
      .error "Only explainer can submit word results") ∧
    (∃ sc e',
      handle_word_action "p1" WordResult.correct
        ⟨sampleState, ⟨sampleTeams⟩⟩ = .ok (sc, e')) := by
  constructor
  · exact ((claim2_word_submission "p9" WordResult.correct c2Engine).2
      { sampleRound with
        words := [⟨"word1", "easy", none, some .correct, some 10⟩]
        score_gained := 1 } (by decide)).1 (by decide)
  · exact (((claim2_word_submission "p1" WordResult.correct
      ⟨sampleState, ⟨sampleTeams⟩⟩).2 sampleRound (by decide)).2
      (by decide)).2.1 (by decide)

/-- Words of a round suffix after in-order processing: each word receives
its submitted result and the common `time_spent` stamp. -/
def assignResults (todo : List GameWord) (rs : List WordResult)
    (spent : Nat) : List GameWord :=
  List.zipWith
    (fun w r => { w with result := some r, time_spent := some spent }) todo rs

theorem skipCount_singleton_assigned (w : GameWord) (r₀ : WordResult)
    (spent : Nat) :
    skipCount [{ w with result := some r₀, time_spent := some spent }] =
      if r₀ = WordResult.skipped then 1 else 0 := by
  cases r₀ <;> simp [skipCount, List.filter]

/-- In-order processing of the unprocessed suffix of the active round:
the run succeeds, assigns each submitted result in place, and accumulates
exactly the section 4.G deltas starting from the skips already recorded in
the processed prefix. -/
theorem runWords_go (rs : List WordResult) :
    ∀ (s : GameState) (r : Round) (done todo : List GameWord),
      s.current_round = some r →
      r.words = done ++ todo →
      (∀ w ∈ todo, w.result = none) →
      s.current_word_index = done.length →
      rs.length = todo.length →
      ∃ s' r',
        runWords s rs = .ok s' ∧
        s'.current_round = some r' ∧
        s'.settings = s.settings ∧
        r'.words = done ++ assignResults todo rs
          (s.settings.round_duration_seconds - r.time_remaining) ∧
        r'.score_gained = r.score_gained +
          sumDeltas (skipCount done) s.settings.skip_penalty_after rs ∧
        r'.timer_seconds = r.timer_seconds ∧
        r'.time_remaining = r.time_remaining ∧
        r'.team_id = r.team_id := by
  induction rs with
  | nil =>
    intro s r done todo hcur hwords hfresh hidx hlen
    have htodo : todo = [] := List.length_eq_zero.mp (by simpa using hlen.symm)
    subst htodo
    refine ⟨s, r, rfl, hcur, rfl, ?_, ?_, rfl, rfl, rfl⟩
    · simpa [assignResults] using hwords
    · simp [sumDeltas]
  | cons r₀ rs ih =>
    intro s r done todo hcur hwords hfresh hidx hlen
    cases todo with
    | nil => simp at hlen
    | cons w ws =>
      have hwfresh : w.result = none := hfresh w (List.mem_cons_self w ws)
      have hget : r.words.get? s.current_word_index = some w := by
        rw [hwords, hidx, List.get?_append_right (le_refl done.length)]
        simp
      have hstep := process_word_result_step s r w r₀ hcur hget hwfresh
      have hskip : skipCount r.words = skipCount done := by
        rw [hwords, skipCount_append, skipCount_of_fresh (w :: ws) hfresh]
        omega
      have hmod : modifyIdx (fun w0 => { w0 with
          result := some r₀
          time_spent := some (s.settings.round_duration_seconds -
            r.time_remaining) })
          s.current_word_index r.words =
          done ++ ({ w with
            result := some r₀
            time_spent := some (s.settings.round_duration_seconds -
              r.time_remaining) } :: ws) := by
        rw [hwords, hidx, modifyIdx_append]
      rw [hmod] at hstep
      obtain ⟨s', r', hrun, hcur', hset', hwords', hscore', htimer', htrem',
          hteam'⟩ :=
        ih ({ s with
          current_round := some { r with
            words := done ++ ({ w with
              result := some r₀
              time_spent := some (s.settings.round_duration_seconds -
                r.time_remaining) } :: ws)
            score_gained := r.score_gained +
              specDelta (skipCount r.words) s.settings.skip_penalty_after r₀ }
          teams := updateFirst (fun t => t.id == r.team_id)
            (fun t => { t with
                score := t.score +
                  specDelta (skipCount r.words) s.settings.skip_penalty_after
                    r₀ })
            s.teams
          current_word_index := s.current_word_index + 1 })
          { r with
            words := done ++ ({ w with
              result := some r₀
              time_spent := some (s.settings.round_duration_seconds -
                r.time_remaining) } :: ws)
            score_gained := r.score_gained +
              specDelta (skipCount r.words) s.settings.skip_penalty_after r₀ }
          (done ++ [{ w with
            result := some r₀
            time_spent := some (s.settings.round_duration_seconds -
              r.time_remaining) }])
          ws rfl (by simp) (fun w'' hw'' => hfresh w'' (List.mem_cons_of_mem w hw''))
          (by simp [hidx]) (by simpa using hlen)
      refine ⟨s', r', ?_, hcur', by simpa using hset', ?_, ?_, by simpa using htimer',
        by simpa using htrem', by simpa using hteam'⟩
      · simp only [runWords, hstep]
        exact hrun
      · rw [hwords']
        simp only [assignResults, List.zipWith_cons_cons]
        simp [assignResults, List.append_assoc]
      · rw [hscore']
        have hsingle : skipCount (done ++ [{ w with
            result := some r₀
            time_spent := some (s.settings.round_duration_seconds -
              r.time_remaining) }]) =
            skipCount done + (if r₀ = WordResult.skipped then 1 else 0) := by
          rw [skipCount_append, skipCount_singleton_assigned]
        simp only [hsingle, hskip]
        show r.score_gained +
            specDelta (skipCount done) s.settings.skip_penalty_after r₀ +
            sumDeltas (skipCount done + if r₀ = WordResult.skipped then 1 else 0)
              s.settings.skip_penalty_after rs =
          r.score_gained +
            sumDeltas (skipCount done) s.settings.skip_penalty_after (r₀ :: rs)
        simp only [sumDeltas]
        omega

/-- The analyzer's base-score loop over a fully-assigned word list equals
the section 4.G delta sum: its strict `>` test on the running count that
includes the current skip coincides with the engine's `>=` test on the
prior count. -/
theorem roundScoreLoop_base_assigned (spa : Nat) :
    ∀ (todo : List GameWord) (rs : List WordResult) (spent : Nat)
      (acc : RoundAcc), rs.length = todo.length →
      (roundScoreLoop
        { ScoringSystem.default with skip_penalty_threshold := spa }
        (assignResults todo rs spent) acc).base_score =
      acc.base_score + sumDeltas acc.skip_count spa rs := by
  intro todo
  induction todo with
  | nil =>
    intro rs spent acc hlen
    have : rs = [] := List.length_eq_zero.mp (by simpa using hlen)
    subst this
    simp [assignResults, roundScoreLoop, sumDeltas]
  | cons w ws ih =>
    intro rs spent acc hlen
    cases rs with
    | nil => simp at hlen
    | cons r₀ rs' =>
      have hlen' : rs'.length = ws.length := by simpa using hlen
      cases r₀ with
      | correct =>
        have := ih rs' spent
          { acc with
            correct_count := acc.correct_count + 1
            base_score := acc.base_score + 1 } hlen'
        simp only [assignResults, List.zipWith_cons_cons, roundScoreLoop,
          ScoringSystem.default] at this ⊢
        rw [this]
        simp [sumDeltas, specDelta]
        omega
      | skipped =>
        have hiff : (acc.skip_count + 1 > spa) = (acc.skip_count ≥ spa) := by
          simp [Nat.lt_succ_iff, ge_iff_le, gt_iff_lt]
        have := ih rs' spent
          { acc with
            skip_count := acc.skip_count + 1
            base_score := acc.base_score +
              (if acc.skip_count + 1 > spa then (-1 : Int) else 0) } hlen'
        simp only [assignResults, List.zipWith_cons_cons, roundScoreLoop,
          ScoringSystem.default] at this ⊢
        rw [this]
        simp only [sumDeltas, specDelta, hiff]
        by_cases hc : acc.skip_count ≥ spa <;> simp [hc] <;> omega
      | penalty =>
        have := ih rs' spent
          { acc with
            penalty_count := acc.penalty_count + 1
            base_score := acc.base_score + (-1 : Int) } hlen'
        simp only [assignResults, List.zipWith_cons_cons, roundScoreLoop,
          ScoringSystem.default] at this ⊢
        rw [this]
        simp [sumDeltas, specDelta]
        omega

/-- Claim C1: with an active round, an in-range unprocessed word under the
cursor, a round timer equal to the configured duration (as `start_round`
establishes) and the owning team present, `process_word_result` returns
exactly the section 4.G delta (`>=` convention for the triggering skip —
the skip threshold compares the count of already-skipped words), writes
the word's result and `time_spent = timer_seconds - time_remaining`,
advances the cursor and adds the delta to the round's `score_gained` and
the owning team's `score`; moreover, running a fresh round's words in
order accumulates `score_gained = sum of the per-word deltas`. -/
theorem claim1_word_scoring :
    (∀ (s : GameState) (r : Round) (w : GameWord) (res : WordResult)
        (ts₁ ts₂ : List Team) (t : Team),
      s.current_round = some r →
      r.words.get? s.current_word_index = some w →
      w.result = none →
      r.timer_seconds = s.settings.round_duration_seconds →
      s.teams = ts₁ ++ t :: ts₂ →
      (∀ t' ∈ ts₁, t'.id ≠ r.team_id) →
      t.id = r.team_id →
      process_word_result s res = .ok
        (specDelta (skipCount r.words) s.settings.skip_penalty_after res,
         { s with
           current_round := some { r with
             words := modifyIdx (fun w0 => { w0 with
                 result := some res
                 time_spent := some (r.timer_seconds - r.time_remaining) })
               s.current_word_index r.words
             score_gained := r.score_gained +
               specDelta (skipCount r.words) s.settings.skip_penalty_after
                 res }
           teams := ts₁ ++ { t with
               score := t.score +
                 specDelta (skipCount r.words) s.settings.skip_penalty_after
                   res } :: ts₂
           current_word_index := s.current_word_index + 1 })) ∧
    (∀ (s : GameState) (r : Round) (rs : List WordResult),
      s.current_round = some r →
      (∀ w ∈ r.words, w.result = none) →
      s.current_word_index = 0 →
      r.score_gained = 0 →
      rs.length = r.words.length →
      ∃ s' r', runWords s rs = .ok s' ∧ s'.current_round = some r' ∧
        r'.score_gained = sumDeltas 0 s.settings.skip_penalty_after rs) := by
  constructor
  · intro s r w res ts₁ ts₂ t hcur hget hfresh htimer hteams hpre ht
    rw [htimer]
    rw [process_word_result_step s r w res hcur hget hfresh]
    have hpre' : ∀ y ∈ ts₁, (fun t0 => t0.id == r.team_id) y = false := by
      intro y hy
      simpa using hpre y hy
    have hupd := updateFirst_append (fun t0 => t0.id == r.team_id)
      (fun t0 => { t0 with
        score := t0.score +
          specDelta (skipCount r.words) s.settings.skip_penalty_after res })
      ts₁ t ts₂ hpre' (by simpa using ht)
    rw [hteams, hupd]
    simp [htimer]
  · intro s r rs hcur hfresh hidx hscore hlen
    obtain ⟨s', r', hrun, hcur', _, _, hsc, _, _, _⟩ :=
      runWords_go rs s r [] r.words hcur (by simp) hfresh (by simpa using hidx)
        (by simpa using hlen)
    refine ⟨s', r', hrun, hcur', ?_⟩
    rw [hsc, hscore]
    simp [skipCount]

/-- Witness for claim C1 at `sampleState`: one correct answer on the
fresh one-word round scores `+1` for `team_a`, and the full run sums the
deltas. -/
theorem claim1_word_scoring_witness :
    (process_word_result sampleState WordResult.correct = .ok
      (specDelta (skipCount sampleRound.words)
        sampleState.settings.skip_penalty_after WordResult.correct,
       { sampleState with
         current_round := some { sampleRound with
           words := modifyIdx (fun w0 => { w0 with
               result := some WordResult.correct
               time_spent := some (sampleRound.timer_seconds -
                 sampleRound.time_remaining) })
             sampleState.current_word_index sampleRound.words
           score_gained := sampleRound.score_gained +
             specDelta (skipCount sampleRound.words)
               sampleState.settings.skip_penalty_after WordResult.correct }
         teams := [] ++ { (⟨"team_a", "A", "#FF6B6B", ["p1", "p2"], 0, true⟩ : Team) with
             score := (0 : Int) +
               specDelta (skipCount sampleRound.words)
                 sampleState.settings.skip_penalty_after
                 WordResult.correct } ::
           [⟨"team_b", "B", "#4ECDC4", ["p3", "p4"], 0, true⟩]
         current_word_index := sampleState.current_word_index + 1 })) ∧
    (∃ s' r', runWords sampleState [WordResult.correct] = .ok s' ∧
      s'.current_round = some r' ∧
      r'.score_gained = sumDeltas 0
        sampleState.settings.skip_penalty_after [WordResult.correct]) := by
  constructor
  · exact (claim1_word_scoring).1 sampleState sampleRound
      ⟨"word1", "easy", none, none, none⟩ WordResult.correct
      [] [⟨"team_b", "B", "#4ECDC4", ["p3", "p4"], 0, true⟩]
      ⟨"team_a", "A", "#FF6B6B", ["p1", "p2"], 0, true⟩
      (by decide) (by decide) (by decide) (by decide) (by decide)
      (by intro t' ht'; simp at ht') (by decide)
  · exact (claim1_word_scoring).2 sampleState sampleRound [WordResult.correct]
      (by decide) (by decide) (by decide) (by decide) (by decide)

/-- Claim C9: processing every word of a fresh round exactly once in order
through the engine yields a `score_gained` equal to the `base_score` the
scoring analyzer computes on the finished round when its
`skip_penalty_threshold` equals `settings.skip_penalty_after` — the
engine's `>=` on prior skips and the analyzer's `>` on the inclusive
count penalize the same skips. -/
theorem claim9_engine_matches_analyzer (s : GameState) (r : Round)
    (rs : List WordResult)
    (hcur : s.current_round = some r)
    (hfresh : ∀ w ∈ r.words, w.result = none)
    (hidx : s.current_word_index = 0)
    (hscore : r.score_gained = 0)
    (hlen : rs.length = r.words.length) :
    ∃ s' r', runWords s rs = .ok s' ∧ s'.current_round = some r' ∧
      r'.score_gained =
        (calculate_round_score
          { ScoringSystem.default with
              skip_penalty_threshold := s.settings.skip_penalty_after }
          r').base_score := by
  obtain ⟨s', r', hrun, hcur', _, hwords', hsc, _, _, _⟩ :=
    runWords_go rs s r [] r.words hcur (by simp) hfresh (by simpa using hidx)
      (by simpa using hlen)
  refine ⟨s', r', hrun, hcur', ?_⟩
  have hbase : (calculate_round_score
      { ScoringSystem.default with
          skip_penalty_threshold := s.settings.skip_penalty_after }
      r').base_score =
      (roundScoreLoop
        { ScoringSystem.default with
            skip_penalty_threshold := s.settings.skip_penalty_after }
        r'.words ⟨0, 0, 0, 0⟩).base_score := rfl
  rw [hbase, hwords']
  simp only [List.nil_append]
  rw [roundScoreLoop_base_assigned s.settings.skip_penalty_after r.words rs
    (s.settings.round_duration_seconds - r.time_remaining) ⟨0, 0, 0, 0⟩ hlen]
  rw [hsc, hscore]
  simp [skipCount]

/-- Witness for claim C9 at `sampleState` with a single skipped word: the
engine total and the analyzer base score agree. -/
theorem claim9_engine_matches_analyzer_witness :
    ∃ s' r', runWords sampleState [WordResult.skipped] = .ok s' ∧
      s'.current_round = some r' ∧
      r'.score_gained =
        (calculate_round_score
          { ScoringSystem.default with
              skip_penalty_threshold :=
                sampleState.settings.skip_penalty_after }
          r').base_score :=
  claim9_engine_matches_analyzer sampleState sampleRound [WordResult.skipped]
    (by decide) (by decide) (by decide) (by decide) (by decide)

/-- Engine operations whose traces claim C3 quantifies over; the words a
`start` draws and the `now` stamps are externalized inputs. -/
inductive GOp where
  | start (drawnWords : List GameWord) (now : Nat)
  | word (result : WordResult)
  | finish (now : Nat)
deriving DecidableEq, Repr

/-- One successful engine call; `none` when the call errors. -/
def gstep (e : Engine) : GOp → Option Engine
  | .start ws now => (start_round e ws now).toOption.map Prod.snd
  | .word res => (process_word_result e.game_state res).toOption.map
      (fun x => { e with game_state := x.2 })
  | .finish now => (end_round e.game_state now).toOption.map
      (fun x => { e with game_state := x.2 })

/-- Run a trace in which every call succeeds. -/
def grun (e : Engine) : List GOp → Option Engine
  | [] => some e
  | op :: ops =>
    match gstep e op with
    | none => none
    | some e₁ => grun e₁ ops

/-- Disciplined step: identical to `gstep` except that `start` is only
taken when no round is active (the guard the source lacks). -/
def gstepD (e : Engine) : GOp → Option Engine
  | .start ws now =>
    if e.game_state.current_round.isSome then none
    else gstep e (.start ws now)
  | op => gstep e op

/-- Run a trace under the disciplined `start` guard. -/
def grunD (e : Engine) : List GOp → Option Engine
  | [] => some e
  | op :: ops =>
    match gstepD e op with
    | none => none
    | some e₁ => grunD e₁ ops

/-- Number of `start` operations in a trace. -/
def countStart : List GOp → Nat
  | [] => 0
  | .start _ _ :: ops => countStart ops + 1
  | .word _ :: ops => countStart ops
  | .finish _ :: ops => countStart ops

/-- Rounds accounted for by a state: finished rounds plus the active one. -/
def roundCount (e : Engine) : Nat :=
  e.game_state.round_history.length +
    (if e.game_state.current_round.isSome then 1 else 0)

theorem check_for_winner_frame (s : GameState) (now : Nat) :
    (check_for_winner s now).round_history = s.round_history ∧
    (check_for_winner s now).current_round = s.current_round := by
  cases hfind : s.teams.find? (fun t => s.settings.win_score ≤ t.score) <;>
    simp [check_for_winner, hfind]

theorem gstep_start_char (e : Engine) (ws : List GameWord) (now : Nat)
    (e' : Engine) (h : gstep e (.start ws now) = some e') :
    e'.game_state.round_history = e.game_state.round_history ∧
    e'.game_state.current_round.isSome = true := by
  simp only [gstep, start_round] at h
  split at h
  · simp [Except.toOption] at h
  · split at h
    · simp [Except.toOption] at h
    · split at h
      · simp [Except.toOption] at h
      · simp only [Except.toOption, Option.map_some] at h
        cases h
        exact ⟨rfl, rfl⟩

theorem gstep_word_char (e : Engine) (res : WordResult) (e' : Engine)
    (h : gstep e (.word res) = some e') :
    e'.game_state.round_history = e.game_state.round_history ∧
    e'.game_state.current_round.isSome = true ∧
    e.game_state.current_round.isSome = true := by
  simp only [gstep, process_word_result] at h
  split at h
  · simp [Except.toOption] at h
  next round heq =>
    split at h
    · simp [Except.toOption] at h
    · simp only [Except.toOption, Option.map_some] at h
      cases h
      exact ⟨rfl, rfl, by simp [heq]⟩

theorem gstep_finish_char (e : Engine) (now : Nat) (e' : Engine)
    (h : gstep e (.finish now) = some e') :
    ∃ r, e.game_state.current_round = some r ∧
      e'.game_state.round_history =
        e.game_state.round_history ++ [{ r with ended_at := some now }] ∧
      e'.game_state.current_round = none := by
  simp only [gstep, end_round] at h
  split at h
  · simp [Except.toOption] at h
  next round heq =>
    split at h
    · simp [Except.toOption] at h
    · simp only [Except.toOption, Option.map_some] at h
      cases h
      refine ⟨round, heq, ?_, ?_⟩
      · exact (check_for_winner_frame _ now).1
      · exact (check_for_winner_frame _ now).2

theorem gstep_history_mono (e : Engine) (op : GOp) (e' : Engine)
    (h : gstep e op = some e') :
    ∃ l, e'.game_state.round_history = e.game_state.round_history ++ l := by
  cases op with
  | start ws now =>
    exact ⟨[], by simp [(gstep_start_char e ws now e' h).1]⟩
  | word res =>
    exact ⟨[], by simp [(gstep_word_char e res e' h).1]⟩
  | finish now =>
    obtain ⟨r, _, hh, _⟩ := gstep_finish_char e now e' h
    exact ⟨[{ r with ended_at := some now }], hh⟩

/-- Engine before any round, with both teams populated. -/
def startEngine : Engine :=
  ⟨{ sampleState with current_round := none }, ⟨sampleTeams⟩⟩

/-- Counterexample to claim C3 as stated: `start_round` has no guard
against an active round, so two successive successful `start_round` calls
leave `|round_history| + 1 = 1` although two `start_round` calls
succeeded — the first round is silently discarded, never appended. -/
theorem claim3_double_start_breaks_count :
    ((grun startEngine
      [GOp.start [⟨"w2", "easy", none, none, none⟩] 0,
       GOp.start [⟨"w3", "easy", none, none, none⟩] 1]).map roundCount) =
        some 1 ∧
    countStart
      [GOp.start [⟨"w2", "easy", none, none, none⟩] 0,
       GOp.start [⟨"w3", "easy", none, none, none⟩] 1] = 2 ∧
    ((grun startEngine
      [GOp.start [⟨"w2", "easy", none, none, none⟩] 0,
       GOp.start [⟨"w3", "easy", none, none, none⟩] 1]).map
        (fun e => e.game_state.round_history.length)) = some 0 := by
  refine ⟨?_, ?_, ?_⟩ <;> decide

/-- Claim C3 as amended: the count equality holds for every trace whose
`start_round` calls are issued only while no round is active (the guard
the source omits); unconditionally, `round_history` is append-only, no
operation but `end_round` touches it, and `end_round` appends exactly the
round it just ended. -/
theorem claim3_round_accounting :
    (∀ (e : Engine) (ops : List GOp) (e' : Engine),
      grunD e ops = some e' →
      roundCount e' = roundCount e + countStart ops) ∧
    (∀ (e : Engine) (ops : List GOp) (e' : Engine),
      grun e ops = some e' →
      ∃ l, e'.game_state.round_history = e.game_state.round_history ++ l) ∧
    (∀ (e : Engine) (e' : Engine),
      (∀ ws now, gstep e (.start ws now) = some e' →
        e'.game_state.round_history = e.game_state.round_history) ∧
      (∀ res, gstep e (.word res) = some e' →
        e'.game_state.round_history = e.game_state.round_history) ∧
      (∀ now, gstep e (.finish now) = some e' →
        ∃ r, e.game_state.current_round = some r ∧
          e'.game_state.round_history =
            e.game_state.round_history ++ [{ r with ended_at := some now }] ∧
          e'.game_state.current_round = none)) := by
  refine ⟨?_, ?_, ?_⟩
  · intro e ops
    induction ops generalizing e with
    | nil =>
      intro e' h
      cases h
      simp [countStart]
    | cons op ops ih =>
      intro e' h
      simp only [grunD] at h
      cases hstep : gstepD e op with
      | none => rw [hstep] at h; exact absurd h (by simp)
      | some e₁ =>
        rw [hstep] at h
        have h' : grunD e₁ ops = some e' := h
        have hrest := ih e₁ e' h'
        cases op with
        | start ws now =>
          simp only [gstepD] at hstep
          by_cases hact : e.game_state.current_round.isSome
          · rw [if_pos hact] at hstep; exact absurd hstep (by simp)
          · rw [if_neg hact] at hstep
            obtain ⟨hh, hs⟩ := gstep_start_char e ws now e₁ hstep
            have hnone : e.game_state.current_round = none :=
              Option.not_isSome_iff_eq_none.mp (by simpa using hact)
            have h₀ : roundCount e = e.game_state.round_history.length := by
              simp [roundCount, hnone]
            have h₁ : roundCount e₁ = e.game_state.round_history.length + 1 := by
              simp [roundCount, hh, hs]
            rw [hrest, h₁, h₀]
            simp [countStart]
            omega
        | word res =>
          obtain ⟨hh, hs', hs⟩ := gstep_word_char e res e₁ hstep
          have : roundCount e₁ = roundCount e := by
            simp [roundCount, hh, hs, hs']
          rw [hrest, this]
          simp [countStart]
        | finish now =>
          obtain ⟨r, hr, hh, hn⟩ := gstep_finish_char e now e₁ hstep
          have : roundCount e₁ = roundCount e := by
            simp [roundCount, hh, hn, hr]
          rw [hrest, this]
          simp [countStart]
  · intro e ops
    induction ops generalizing e with
    | nil =>
      intro e' h
      cases h
      exact ⟨[], by simp⟩
    | cons op ops ih =>
      intro e' h
      simp only [grun] at h
      cases hstep : gstep e op with
      | none => rw [hstep] at h; exact absurd h (by simp)
      | some e₁ =>
        rw [hstep] at h
        have h' : grun e₁ ops = some e' := h
        obtain ⟨l₁, hl₁⟩ := gstep_history_mono e op e₁ hstep
        obtain ⟨l₂, hl₂⟩ := ih e₁ e' h'
        exact ⟨l₁ ++ l₂, by rw [hl₂, hl₁, List.append_assoc]⟩
  · intro e e'
    exact ⟨fun ws now h => (gstep_start_char e ws now e' h).1,
      fun res h => (gstep_word_char e res e' h).1,
      fun now h => gstep_finish_char e now e' h⟩

/-- Witness for claim C3: on the concrete disciplined trace that starts a
round, answers its word and ends it, the accounting equality holds. -/
theorem claim3_round_accounting_witness :
    ((grunD startEngine
      [GOp.start [⟨"w2", "easy", none, none, none⟩] 0,
       GOp.word WordResult.correct, GOp.finish 3]).map roundCount) =
      some (roundCount startEngine + countStart
        [GOp.start [⟨"w2", "easy", none, none, none⟩] 0,
         GOp.word WordResult.correct, GOp.finish 3]) := by
  cases hrun : grunD startEngine
      [GOp.start [⟨"w2", "easy", none, none, none⟩] 0,
       GOp.word WordResult.correct, GOp.finish 3] with
  | none => exact absurd hrun (by decide)
  | some e' =>
    have := claim3_round_accounting.1 startEngine
      [GOp.start [⟨"w2", "easy", none, none, none⟩] 0,
       GOp.word WordResult.correct, GOp.finish 3] e' hrun
    simp [this]

end AliasGame
